import Mathlib

/-!
Verification of the RTTIHook repository (PEParser / RTTIScanner / VFTHook)
against its natural-language specification.

The C++ sources are shallowly embedded: machine pointers and machine
integers are modelled as `Nat` / `Int` with explicit reductions modulo
`2^32` / `2^64` where the source performs truncating casts, memory is
modelled explicitly (a byte image for the PE parser, a field-granular
heap for the hook engine), and fallible operations return `Option`.
-/

namespace PEParser

/-- `2^32`, the modulus of a 32-bit machine integer. -/
def U32 : Nat := 4294967296

/-- `2^64`, the modulus of a 64-bit machine integer / pointer. -/
def U64 : Nat := 18446744073709551616

/-- Reinterpret the low 32 bits of a natural number as a signed 32-bit
integer (two's complement), as C++ does in `static_cast<int>`. -/
def toI32 (n : Nat) : Int :=
  if n % U32 < 2147483648 then (n % U32 : Int) else (n % U32 : Int) - (U32 : Int)

/-- Reinterpret the low 16 bits of a natural number as a signed 16-bit
integer (two's complement), as C++ does when reading a `short`. -/
def toI16 (n : Nat) : Int :=
  if n % 65536 < 32768 then (n % 65536 : Int) else (n % 65536 : Int) - 65536

/-- 64-bit wrapping subtraction of two pointer values, as performed by
`uintptr_t` subtraction in the source. -/
def sub64 (a b : Nat) : Nat := (a % U64 + U64 - b % U64) % U64

/-- `PEParser::ibo32::ibo32(T1* address, T2* base)` (part_000, lines 82-85):
`val = static_cast<int>(uintptr_t(address) - uintptr_t(base))`. -/
def ibo32OfAddr (address base : Nat) : Int := toI32 (sub64 address base)

/-- `PEParser::ibo32::as(T2* base)` (part_000, lines 103-106):
`reinterpret_cast<unsigned char*>(base) + val`, a 64-bit wrapping
pointer-plus-signed-offset computation. -/
def ibo32As (val : Int) (base : Nat) : Nat :=
  (((base : Int) + val) % (U64 : Int)).toNat

/-! ### PE header parsing (part_000, `PEParser::parse` and `SectionMap`)

The loaded image is modelled as a total byte function `img : Int → Nat`
over offsets from the module base (negative offsets address memory below
the base, which the source can reach through signed header fields).
Reads the source performs beyond the module's loaded size simply read
whatever `img` holds there, exactly as the unchecked C++ casts do. -/
/-- One byte of the mapped image at a signed offset from the base. -/
def readU8 (img : Int → Nat) (o : Int) : Nat := img o % 256

/-- A little-endian 16-bit read, as `*reinterpret_cast<short*>` does. -/
def readU16 (img : Int → Nat) (o : Int) : Nat :=
  readU8 img o + 256 * readU8 img (o + 1)

/-- A little-endian 32-bit read, as `*reinterpret_cast<int*>` does. -/
def readU32 (img : Int → Nat) (o : Int) : Nat :=
  readU8 img o + 256 * readU8 img (o + 1) + 65536 * readU8 img (o + 2) +
    16777216 * readU8 img (o + 3)

/-- Reading a NUL-terminated byte string, as the `std::string` assignment
`section->name = reinterpret_cast<const char*>(base)` does: bytes are taken
until the first NUL, with no regard for the 8-byte name field boundary.
`fuel` bounds the read (the C++ read is unbounded until a NUL byte). -/
def readCStr (img : Int → Nat) (o : Int) : Nat → List Nat
  | 0 => []
  | fuel + 1 =>
    if readU8 img o = 0 then [] else readU8 img o :: readCStr img (o + 1) fuel

/-- `PEParser::Section` as stored by `parse`: the `std::string` name (a
byte list), the `size_t` size, and the `ibo32` start/end values. -/
structure Sec where
  name : List Nat
  size : Nat
  start : Int
  stop : Int
deriving Repr, DecidableEq

/-- Decoding of one 40-byte section header at `tbl + 40*i`
(part_000, lines 236-247):
name is the C string at the header start; `size` is the `int` at +0x08
assigned to a `size_t` (sign-extended, reduced mod 2^64); `start` is the
`int` at +0x0C; `end` is `start.as() + size` narrowed back to `int`. -/
def decodeSec (img : Int → Nat) (tbl : Int) (i : Nat) : Sec :=
  let hdr := tbl + 40 * (i : Int)
  let sz : Int := toI32 (readU32 img (hdr + 8))
  let st : Int := toI32 (readU32 img (hdr + 12))
  { name := readCStr img hdr 4096
    size := (sz % (U64 : Int)).toNat
    start := st
    stop := toI32 ((st % (U32 : Int)).toNat + (sz % (U64 : Int)).toNat) }

/-- The section map: name → list of sections, in encounter order.
Models `std::unordered_map<std::string, std::vector<...>>`; only lookup
and per-name order are meaningful, so an association list suffices. -/
abbrev SMap : Type := List (List Nat × List Sec)

/-- `PEParser::SectionMap::addSection` (part_000, lines 178-195): if the
name is present, push the section to the back of that name's vector,
otherwise create a fresh singleton vector for the name. -/
def addSection (mp : SMap) (s : Sec) : SMap :=
  match mp with
  | [] => [(s.name, [s])]
  | (n, l) :: rest =>
    if n = s.name then (n, l ++ [s]) :: rest else (n, l) :: addSection rest s

/-- Lookup in the section map (`SectionMap::getSectionsWithName`). -/
def smapFind (mp : SMap) (n : List Nat) : Option (List Sec) :=
  match mp with
  | [] => none
  | (k, l) :: rest => if k = n then some l else smapFind rest n

/-- The `e_lfanew` offset: the signed 32-bit value at offset 0x3C
(`base += *reinterpret_cast<int*>(base + 0x3C)`). -/
def peOff (img : Int → Nat) : Int := toI32 (readU32 img 0x3C)

/-- The section count, read as a *signed* `short` at pe+0x06 and used as
the bound of `for (int i = 0; i < sectionCount; i++)` (negative values
yield zero iterations, hence `Int.toNat`). -/
def secCnt (img : Int → Nat) : Nat := (toI16 (readU16 img (peOff img + 0x06))).toNat

/-- The section table offset: pe + signed `short` optional-header size at
pe+0x14 + 0x18 (`base += *reinterpret_cast<short*>(base + 0x14) + 0x18`). -/
def secTbl (img : Int → Nat) : Int :=
  peOff img + toI16 (readU16 img (peOff img + 0x14)) + 0x18

/-- `PEParser::parse` (part_000, lines 219-250).  Checks the `MZ` u16 at
offset 0 and the `PE` i32 at the `e_lfanew` offset read from 0x3C, then
decodes `secCnt` headers of 40 bytes starting at `secTbl` into the
section map.  No offset is ever compared against the module's loaded
size.  Returns `none` exactly where the source returns `false`. -/
def parse (img : Int → Nat) : Option SMap :=
  if readU16 img 0 ≠ 0x5A4D then none
  else if toI32 (readU32 img (peOff img)) ≠ 0x4550 then none
  else
    some ((List.range (secCnt img)).foldl
      (fun mp i => addSection mp (decodeSec img (secTbl img) i)) [])

/-- The flat, encounter-ordered list of sections the parse loop decodes. -/
def headerSecs (img : Int → Nat) : List Sec :=
  (List.range (secCnt img)).map (decodeSec img (secTbl img))

/-- The 8-byte header name field trimmed of trailing NUL bytes — this is
what the specification says the stored name is; compared against the
parse result, which stores a C string instead. -/
def nameFieldTrimmed (img : Int → Nat) (hdr : Int) : List Nat :=
  (List.dropWhile (fun b => b = 0)
    ((List.range 8).reverse.map (fun i => readU8 img (hdr + (i : Int))))).reverse

end PEParser

namespace RTTIScanner

/-! ### Strategy (B): the `.rdata` pointer sweep (example/dllmain.cpp,
`RTTIScanner::scan`, lines 231-253)

The section is a pointer array: `slotAt i` is the pointer value in the
i-th pointer-aligned slot counted from the section start (indices at or
beyond `fin` lie past the section end; the loop can read them).  `rd v`
models `PEParser::isAddressInSection(v, rdata)` and `tx v` models
`PEParser::isAddressInSection(v, text)`.  The loop is

    while (pCOL++ < end) {
        auto COL = *pCOL;
        if (!PEParser::isAddressInSection(COL, rdata)) continue;
        if (!PEParser::isAddressInSection(*(++pCOL), text)) continue;
        ... (validation, emplace) ...
    }

`sweepFuel` returns the list of slot indices the loop examines as
candidates (the index `pCOL` dereferences for `COL`) and the sublist of
those that pass both pointer checks and are taken as
`CompleteObjectLocator` pointers.  `fuel` only bounds the recursion; the
cursor dynamics are the source's. -/
def sweepFuel (rd tx : Nat → Bool) (slotAt : Nat → Nat) :
    Nat → Nat → Nat → List Nat × List Nat
  | 0, _, _ => ([], [])
  | fuel + 1, cur, fin =>
    if cur < fin then
      let c := cur + 1
      if rd (slotAt c) then
        let r := sweepFuel rd tx slotAt fuel (c + 1) fin
        if tx (slotAt (c + 1)) then (c :: r.1, c :: r.2) else (c :: r.1, r.2)
      else
        let r := sweepFuel rd tx slotAt fuel c fin
        (c :: r.1, r.2)
    else ([], [])

/-- The sweep over a section of `fin` pointer slots (cursor from 0).
Every iteration both consumes one unit of fuel and advances the cursor
by at least one, so `fin - cur` units of fuel reproduce the loop
exactly. -/
def sweep (rd tx : Nat → Bool) (slotAt : Nat → Nat) (cur fin : Nat) :
    List Nat × List Nat :=
  sweepFuel rd tx slotAt (fin - cur) cur fin

/-! ### RTTI map insertion (`RTTIScanner::scan` / `getClassRTTI`) -/
/-- The public per-class record held by the scanner's map
(`RTTIScanner::RTTI`): VFT, COL, TD, CHD and BCD pointers. -/
structure RTTIRec where
  pVFT : Nat
  pCOL : Nat
  pTD : Nat
  pCHD : Nat
  pBCD : Nat
deriving Repr, DecidableEq

/-- `classRTTI.emplace(name, ...)`: `std::unordered_map::emplace` only
inserts when the key is absent — an existing record is never replaced
or modified. -/
def emplaceRTTI (mp : List (String × RTTIRec)) (k : String) (v : RTTIRec) :
    List (String × RTTIRec) :=
  if (mp.lookup k).isSome then mp else mp ++ [(k, v)]

/-- `RTTIScanner::getClassRTTI` (lines 211-215): `find` in the map and
return the record, `nullptr` when absent. -/
def getClassRTTI (mp : List (String × RTTIRec)) (name : String) : Option RTTIRec :=
  mp.lookup name

/-- The insertion phase of a scan: each validated candidate `(name,
record)` is emplaced in encounter order. -/
def scanEmplaceAll (cands : List (String × RTTIRec))
    (mp : List (String × RTTIRec)) : List (String × RTTIRec) :=
  cands.foldl (fun m c => emplaceRTTI m c.1 c.2) mp

end RTTIScanner

namespace VFTHook

/-! ### The VFT hook engine (src/VFTHook.h)

Memory is modelled at pointer-field granularity: one modelled VFT slot
(`slotAddr` holding `slotVal`), the live trampoline allocations (base
address ↦ header record) and an ambient byte-pointer function for every
other address.  The header fields the chain logic never compares or
follows (`mutex`, `extra`, and the `context`/`allocator` of the
template variants) are left out of the record; their byte offsets are
accounted for in the field offsets below.  Executions are modelled
single-threaded: the mutex lock/unlock pairs and the fenced re-read of
the slot (`hook->hookData.fnHooked != *vftEntry`, which can never
differ without a concurrent writer) have no state effect. -/
/-- The magic of `VFTHook::HookLayout::HookData` (VFTHook.h line 157):
`0x6B6F6F48544656`, the little-endian bytes of the string `VFTHook`
followed by a NUL. -/
def magicV : Nat := 0x6B6F6F48544656

/-- The magic of the `HookData` shared by the `VFTHookTemplate` hook
layouts (lines 248-260 of the second header): `0x6B6F6F48696E55`, the
little-endian bytes of the string `UniHook` followed by a NUL. -/
def magicU : Nat := 0x6B6F6F48696E55

/-- `sizeof(VFTHook::HookLayout::HookData)` on MSVC x64: magic (8) +
`std::shared_ptr<std::mutex>` (16) + `previous` (8) + `fnNew` (8) +
`fnHooked` (8) + `extra` (8) = 56 bytes.  The trampoline body `asmRaw`
starts at this offset inside the allocation. -/
def hdrSize : Nat := 56

/-- Byte offset of the `previous` field inside the header. -/
def prevOff : Nat := 24

/-- Byte offset of the `fnNew` field inside the header. -/
def fnNewOff : Nat := 32

/-- Byte offset of the `fnHooked` field inside the header. -/
def fnHookedOff : Nat := 40

/-- The pointer fields of one hook header that the chain logic reads,
compares and rewrites. -/
structure HookRec where
  magic : Nat
  previous : Nat
  fnNew : Nat
  fnHooked : Nat
deriving Repr, DecidableEq

/-- Memory as the hook engine sees it. -/
structure Mem where
  slotAddr : Nat
  slotVal : Nat
  hooks : List (Nat × HookRec)
  ambient : Nat → Nat

/-- An 8-byte load at `a` from the header of the hook record `p`, when
`a` addresses one of its modelled fields. -/
def hookFieldRead (a : Nat) (p : Nat × HookRec) : Option Nat :=
  if a = p.1 then some p.2.magic
  else if a = p.1 + prevOff then some p.2.previous
  else if a = p.1 + fnNewOff then some p.2.fnNew
  else if a = p.1 + fnHookedOff then some p.2.fnHooked
  else none

/-- A pointer-sized load. -/
def readPtr (m : Mem) (a : Nat) : Nat :=
  if a = m.slotAddr then m.slotVal
  else
    match m.hooks.findSome? (hookFieldRead a) with
    | some v => v
    | none => m.ambient a

/-- The effect of an 8-byte store at `a` on the hook record `p`. -/
def hookFieldUpd (a v : Nat) (p : Nat × HookRec) : Nat × HookRec :=
  if a = p.1 then (p.1, { p.2 with magic := v })
  else if a = p.1 + prevOff then (p.1, { p.2 with previous := v })
  else if a = p.1 + fnNewOff then (p.1, { p.2 with fnNew := v })
  else if a = p.1 + fnHookedOff then (p.1, { p.2 with fnHooked := v })
  else p

/-- A pointer-sized store. -/
def writePtr (m : Mem) (a v : Nat) : Mem :=
  if a = m.slotAddr then { m with slotVal := v }
  else if m.hooks.any (fun p => (hookFieldRead a p).isSome) then
    { m with hooks := m.hooks.map (hookFieldUpd a v) }
  else { m with ambient := Function.update m.ambient a v }

/-- `VFTHook::rdataWrite` (VFTHook.h lines 92-99): change the page
protection (the `prot` oracle says whether `VirtualProtect` succeeds at
a destination); on failure return `false` without storing; otherwise
fence, perform the pointer-sized store and restore the protection. -/
def rdataWrite (prot : Nat → Bool) (m : Mem) (a v : Nat) : Mem × Bool :=
  if prot a then (writePtr m a v, true) else (m, false)

/-- The protection oracle under which every `VirtualProtect` succeeds. -/
def allOk : Nat → Bool := fun _ => true

/-- `VFTHook::hook` (VFTHook.h lines 102-146), generic in the acting
template's magic `mg` and header size `D`, for the slot cell at address
`entry` (`vftEntry = &pVirtualFunctionTable[vftIndex]`): allocate the
page at the fresh address `h` and memcpy the template (placing `mg` in
the header), snapshot `fnHooked = *vftEntry`, set `previous = vftEntry`
and `fnNew`; then, if the 8 bytes at `fnHooked - D` equal the acting
hook's own magic, link into the pre-existing chain — write the previous
hook's `previous` field and then the slot — otherwise write the slot
directly.  The boolean results of `rdataWrite` are ignored, exactly as
at the source's call sites. -/
def installG (prot : Nat → Bool) (mg D entry fn h : Nat) (m : Mem) : Mem :=
  let fnH := readPtr m entry
  let r : HookRec := { magic := mg, previous := entry, fnNew := fn, fnHooked := fnH }
  let m0 : Mem := { m with hooks := (h, r) :: m.hooks }
  let prevAddr := fnH - D
  if mg = readPtr m0 prevAddr then
    let m1 := (rdataWrite prot m0 (prevAddr + prevOff) h).1
    (rdataWrite prot m1 entry (h + D)).1
  else
    (rdataWrite prot m0 entry (h + D)).1

/-- `VFTHook::~VFTHook` (VFTHook.h lines 47-84).  `alloc = none` models
a null `allocationBase`: the destructor returns at once, freeing and
writing nothing.  Otherwise: the top-hook walk (lines 52-56) only
locates the mutex and performs no write, so it does not appear in the
state transformer; `nextHook = fnHooked - sizeof(HookData)` and
`prevHook = previous` are snapshotted before the writes; if `nextHook`
carries the hook's own magic its `previous` is redirected; then if
`prevHook` carries the magic its `fnHooked` is replaced, else the raw
cell at `previous` (the VFT slot) is overwritten with `fnHooked`; in
every case the allocation is then freed. -/
def unhookG (prot : Nat → Bool) (D : Nat) (alloc : Option Nat) (m : Mem) : Mem :=
  match alloc with
  | none => m
  | some h =>
    match m.hooks.lookup h with
    | none => m
    | some r =>
      let next := r.fnHooked - D
      let m1 := if r.magic = readPtr m next
                then (rdataWrite prot m (next + prevOff) r.previous).1 else m
      let m2 := if r.magic = readPtr m1 r.previous
                then (rdataWrite prot m1 (r.previous + fnHookedOff) r.fnHooked).1
                else (rdataWrite prot m1 r.previous r.fnHooked).1
      { m2 with hooks := m2.hooks.filter (fun p => p.1 ≠ h) }

/-- `VFTHook::VFTHook(className, vftIndex, function)` (VFTHook.h lines
25-31): resolve the class via `RTTIScanner::getClassRTTI`; when absent,
return with a null `allocationBase` (no allocation, no write);
otherwise hook `&pVirtualFunctionTable[vftIndex]`.  Returns the final
memory and the `allocationBase` of the handle. -/
def hookByName (rtti : List (String × RTTIScanner.RTTIRec)) (nm : String)
    (idx fn h : Nat) (m : Mem) : Mem × Option Nat :=
  match RTTIScanner.getClassRTTI rtti nm with
  | none => (m, none)
  | some cls => (installG allOk magicV hdrSize (cls.pVFT + 8 * idx) fn h m, some h)

/-- The slot content of a well-formed chain `st` (newest hook first):
the newest hook's trampoline body, or `t` (the original function) when
the chain is empty. -/
def nextBody (st : List (Nat × Nat)) (t : Nat) : Nat :=
  match st with
  | [] => t
  | (b, _) :: _ => b + hdrSize

/-- The hook records of a well-formed chain `st` (each element is
`(allocation base, fnNew)`, newest hook first): the newest hook's
`previous` holds `prev` (the anchor slot address), every other hook's
`previous` holds the base of the hook installed just after it, each
hook's `fnHooked` holds the body of the next-older hook, and the
oldest hook's `fnHooked` holds `t`. -/
def chainRecs (prev : Nat) (st : List (Nat × Nat)) (t : Nat) : List (Nat × HookRec) :=
  match st with
  | [] => []
  | (b, f) :: rest =>
    (b, { magic := magicV, previous := prev, fnNew := f, fnHooked := nextBody rest t }) ::
      chainRecs b rest t

/-- The memory of a well-formed chain state `st` over the slot `sa`
whose original entry was `F0`. -/
def mkChain (sa F0 : Nat) (amb : Nat → Nat) (st : List (Nat × Nat)) : Mem :=
  { slotAddr := sa, slotVal := nextBody st F0, hooks := chainRecs sa st F0, ambient := amb }

/-- The base of the oldest-listed element of `st` (the hook just above
the element appended after `st`), or `dflt` when `st` is empty. -/
def lastBase (st : List (Nat × Nat)) (dflt : Nat) : Nat :=
  match st with
  | [] => dflt
  | (b, _) :: rest => lastBase rest b

/-- Two separated addresses: at least one header apart. -/
def sepRel (a b : Nat) : Prop := a + hdrSize ≤ b ∨ b + hdrSize ≤ a

instance sepRelDec (a b : Nat) : Decidable (sepRel a b) :=
  inferInstanceAs (Decidable (a + hdrSize ≤ b ∨ b + hdrSize ≤ a))

/-- Address sanity of a chain scenario over slot `sa`, original entry
`F0` and trampoline bases `bs`: the slot and the bases are pairwise at
least one header apart (distinct pages never overlap, and a trampoline
page never contains the VFT slot); no trampoline body address and not
`F0` itself spell the magic sentinel; `F0` is an ordinary code address,
far enough from the slot and the trampolines that the probe address
`F0 - hdrSize` aliases none of their fields, and the ambient bytes
there do not spell the magic. -/
structure GoodAddrs (sa F0 : Nat) (bs : List Nat) (amb : Nat → Nat) : Prop where
  sep : (sa :: bs).Pairwise sepRel
  f0lo : 2 * hdrSize ≤ F0
  f0sep : ∀ b ∈ sa :: bs, b + 2 * hdrSize ≤ F0 ∨ F0 + hdrSize ≤ b
  f0amb : amb (F0 - hdrSize) ≠ magicV
  f0mag : F0 ≠ magicV
  bodymag : ∀ b ∈ bs, b + hdrSize ≠ magicV

/-- Destroying a list of hook handles in sequence. -/
def unhookAll (l : List Nat) (m : Mem) : Mem :=
  l.foldl (fun mm x => unhookG allOk hdrSize (some x) mm) m

end VFTHook

namespace RTTIHookClaims

/-! ### C7: parse error behaviour -/
/-- A concrete mapped image whose loaded size is 0x100 bytes: a valid
`MZ` signature at 0, `e_lfanew = 0x200` (beyond the loaded size), and a
valid `PE` signature at 0x200 with a zero section count. -/
def imgC7 : Int → Nat := fun o =>
  if o = 0 then 0x4D else if o = 1 then 0x5A
  else if o = 0x3D then 0x02
  else if o = 0x200 then 0x50 else if o = 0x201 then 0x45
  else 0

/-- The loaded size of the module `imgC7` models. -/
def sizeC7 : Nat := 0x100

/-! ### C5: PE section-table construction -/
/-- A concrete image: `MZ`, `e_lfanew = 0x80`, `PE` at 0x80, one section
header at 0x98 whose 8-byte name field is `ABCDEFGH` (no NUL), with
`virtual_size = 0x41` at header+0x08 and `virtual_addr = 0x1000` at
header+0x0C.  The first byte of `virtual_size` is 0x41, i.e. `A`. -/
def imgC5 : Int → Nat := fun o =>
  if o = 0 then 0x4D else if o = 1 then 0x5A
  else if o = 0x3C then 0x80
  else if o = 0x80 then 0x50 else if o = 0x81 then 0x45
  else if o = 0x86 then 1
  else if o = 0x98 then 0x41 else if o = 0x99 then 0x42 else if o = 0x9A then 0x43
  else if o = 0x9B then 0x44 else if o = 0x9C then 0x45 else if o = 0x9D then 0x46
  else if o = 0x9E then 0x47 else if o = 0x9F then 0x48
  else if o = 0xA0 then 0x41
  else if o = 0xA5 then 0x10
  else 0

/-! ### C4: error atomicity of hook placement/removal -/
/-- The protection oracle that fails exactly at the VFT slot 100. -/
def protC4 : Nat → Bool := fun a => a != 100

end RTTIHookClaims

namespace PEParser

theorem toI32_bounds (n : Nat) : -2147483648 ≤ toI32 n ∧ toI32 n < 2147483648 := by
  unfold toI32 U32
  split <;> constructor <;> omega

/-- Converting an in-range ibo value to a pointer with any base and
reading it back with the same base restores the value. -/
theorem ibo32_addr_roundtrip (v : Int) (hlo : -2147483648 ≤ v) (hhi : v < 2147483648)
    (b : Nat) (hb : b < U64) : ibo32OfAddr (ibo32As v b) b = v := by
  unfold ibo32OfAddr ibo32As sub64 toI32 U64 U32 at *
  push_cast at *
  split <;> omega

theorem smapFind_addSection (mp : SMap) (s : Sec) (nm : List Nat) :
    smapFind (addSection mp s) nm =
      if s.name = nm then some (((smapFind mp nm).getD []) ++ [s])
      else smapFind mp nm := by
  induction mp with
  | nil =>
    by_cases h : s.name = nm <;> simp [addSection, smapFind, h]
  | cons p rest ih =>
    obtain ⟨n, l⟩ := p
    simp only [addSection]
    by_cases h1 : n = s.name
    · simp only [if_pos h1, smapFind]
      by_cases h2 : n = nm
      · have hs : s.name = nm := h1.symm.trans h2
        simp [smapFind, h2, hs]
      · have hs : ¬ s.name = nm := fun hh => h2 (h1.trans hh)
        simp [smapFind, h2, hs]
    · simp only [if_neg h1, smapFind]
      by_cases h2 : n = nm
      · have hs : ¬ s.name = nm := fun hh => h1 (h2.trans hh.symm)
        simp [smapFind, h2, hs]
      · simp [smapFind, h2, ih]

theorem smapFind_foldl_addSection (nm : List Nat) :
    ∀ (ss : List Sec) (mp : SMap),
      smapFind (ss.foldl addSection mp) nm =
        if ss.filter (fun s => s.name = nm) = [] then smapFind mp nm
        else some (((smapFind mp nm).getD []) ++ ss.filter (fun s => s.name = nm)) := by
  intro ss
  induction ss with
  | nil => intro mp; simp
  | cons s ss ih =>
    intro mp
    by_cases h : s.name = nm
    · simp only [List.foldl_cons, ih, smapFind_addSection, List.filter_cons,
        decide_eq_true_eq, h, if_pos rfl]
      by_cases h2 : ss.filter (fun s => s.name = nm) = [] <;>
        simp [h2, List.append_assoc]
    · simp only [List.foldl_cons, ih, smapFind_addSection, List.filter_cons,
        decide_eq_true_eq, h, if_neg h]
      simp [h]

end PEParser

namespace RTTIScanner

theorem lookup_append_rtti (l1 l2 : List (String × RTTIRec)) (n : String) :
    (l1 ++ l2).lookup n =
      match l1.lookup n with
      | some v => some v
      | none => l2.lookup n := by
  induction l1 with
  | nil => simp [List.lookup]
  | cons p t ih =>
    by_cases h : n == p.1
    · simp [List.lookup, h]
    · simp only [List.cons_append, List.lookup, h]
      exact ih

theorem lookup_scanEmplaceAll (n : String) :
    ∀ (cands mp : List (String × RTTIRec)),
      (scanEmplaceAll cands mp).lookup n =
        match mp.lookup n with
        | some v => some v
        | none => (cands.find? (fun c => c.1 == n)).map Prod.snd := by
  intro cands
  induction cands with
  | nil => intro mp; cases h : mp.lookup n <;> simp [scanEmplaceAll, h]
  | cons c t ih =>
    intro mp
    have hstep : scanEmplaceAll (c :: t) mp = scanEmplaceAll t (emplaceRTTI mp c.1 c.2) := rfl
    rw [hstep, ih]
    by_cases hk : c.1 = n
    · subst hk
      cases hmp : mp.lookup c.1 with
      | some v => simp [emplaceRTTI, hmp]
      | none =>
        simp only [emplaceRTTI, hmp, Option.isSome_none, Bool.false_eq_true, if_false]
        rw [lookup_append_rtti]
        simp [hmp, List.lookup, List.find?_cons_of_pos]
    · have hbeq : ¬ (c.1 == n) = true := by simpa using hk
      have hfind : (c :: t).find? (fun x => x.1 == n) = t.find? (fun x => x.1 == n) :=
        List.find?_cons_of_neg _ (by simpa using hk)
      cases hmp : mp.lookup c.1 with
      | some v => simp [emplaceRTTI, hmp, hfind]
      | none =>
        simp only [emplaceRTTI, hmp, Option.isSome_none, Bool.false_eq_true, if_false]
        rw [lookup_append_rtti]
        cases hn : mp.lookup n with
        | some w => simp [hn, hfind]
        | none =>
          have hne : (n == c.1) = false :=
            beq_eq_false_iff_ne.mpr (fun h => hk h.symm)
          have : ([(c.1, c.2)] : List (String × RTTIRec)).lookup n = none := by
            simp [List.lookup, hne]
          simp [hn, this, hfind]

end RTTIScanner

namespace VFTHook

theorem hookFieldRead_of_far (a b : Nat) (r : HookRec)
    (h : a < b ∨ b + hdrSize ≤ a) : hookFieldRead a (b, r) = none := by
  unfold hookFieldRead prevOff fnNewOff fnHookedOff at *
  unfold hdrSize at h
  have h1 : ¬ a = b := by omega
  have h2 : ¬ a = b + 24 := by omega
  have h3 : ¬ a = b + 32 := by omega
  have h4 : ¬ a = b + 40 := by omega
  simp [h1, h2, h3, h4]

theorem hookFieldUpd_of_far (a v b : Nat) (r : HookRec)
    (h : a < b ∨ b + hdrSize ≤ a) : hookFieldUpd a v (b, r) = (b, r) := by
  unfold hookFieldUpd prevOff fnNewOff fnHookedOff at *
  unfold hdrSize at h
  have h1 : ¬ a = b := by omega
  have h2 : ¬ a = b + 24 := by omega
  have h3 : ¬ a = b + 32 := by omega
  have h4 : ¬ a = b + 40 := by omega
  simp [h1, h2, h3, h4]

theorem hookFieldRead_base (b : Nat) (r : HookRec) :
    hookFieldRead b (b, r) = some r.magic := by
  simp [hookFieldRead]

theorem hookFieldUpd_prevField (b v : Nat) (r : HookRec) :
    hookFieldUpd (b + prevOff) v (b, r) = (b, { r with previous := v }) := by
  unfold hookFieldUpd prevOff
  have h1 : ¬ b + 24 = b := by omega
  simp [h1]

theorem hookFieldUpd_fnHookedField (b v : Nat) (r : HookRec) :
    hookFieldUpd (b + fnHookedOff) v (b, r) = (b, { r with fnHooked := v }) := by
  unfold hookFieldUpd prevOff fnNewOff fnHookedOff
  have h1 : ¬ b + 40 = b := by omega
  have h2 : ¬ b + 40 = b + 24 := by omega
  have h3 : ¬ b + 40 = b + 32 := by omega
  simp [h1, h2, h3]

theorem findSome?_none_of_all (l : List (Nat × HookRec)) (a : Nat)
    (h : ∀ p ∈ l, hookFieldRead a p = none) :
    l.findSome? (hookFieldRead a) = none := by
  induction l with
  | nil => rfl
  | cons p t ih =>
    have hp := h p (by simp)
    simp only [List.findSome?, hp]
    exact ih (fun q hq => h q (by simp [hq]))

theorem readPtr_slot (m : Mem) : readPtr m m.slotAddr = m.slotVal := by
  simp [readPtr]

theorem readPtr_ambient (m : Mem) (a : Nat) (h1 : a ≠ m.slotAddr)
    (h2 : ∀ p ∈ m.hooks, hookFieldRead a p = none) :
    readPtr m a = m.ambient a := by
  unfold readPtr
  rw [if_neg h1, findSome?_none_of_all _ _ h2]

theorem readPtr_of_findSome (m : Mem) (a v : Nat) (h1 : a ≠ m.slotAddr)
    (h2 : m.hooks.findSome? (hookFieldRead a) = some v) :
    readPtr m a = v := by
  unfold readPtr
  rw [if_neg h1, h2]

theorem writePtr_slot (m : Mem) (v : Nat) :
    writePtr m m.slotAddr v = { m with slotVal := v } := by
  simp [writePtr]

theorem writePtr_field (m : Mem) (a v : Nat) (h1 : a ≠ m.slotAddr)
    (p : Nat × HookRec) (hp : p ∈ m.hooks) (hs : (hookFieldRead a p).isSome) :
    writePtr m a v = { m with hooks := m.hooks.map (hookFieldUpd a v) } := by
  unfold writePtr
  rw [if_neg h1, if_pos (List.any_eq_true.mpr ⟨p, hp, hs⟩)]

theorem map_hookFieldUpd_id (l : List (Nat × HookRec)) (a v : Nat)
    (h : ∀ p ∈ l, hookFieldRead a p = none) :
    l.map (hookFieldUpd a v) = l := by
  induction l with
  | nil => rfl
  | cons p t ih =>
    have hp := h p (by simp)
    have hupd : hookFieldUpd a v p = p := by
      obtain ⟨b, r⟩ := p
      unfold hookFieldRead at hp
      unfold hookFieldUpd
      split at hp
      · exact absurd hp (by simp)
      · split at hp
        · exact absurd hp (by simp)
        · split at hp
          · exact absurd hp (by simp)
          · split at hp
            · exact absurd hp (by simp)
            · simp_all
    simp only [List.map_cons, hupd, ih (fun q hq => h q (by simp [hq]))]

theorem chainRecs_fst (prev t : Nat) (st : List (Nat × Nat)) :
    (chainRecs prev st t).map Prod.fst = st.map Prod.fst := by
  induction st generalizing prev with
  | nil => rfl
  | cons p rest ih =>
    obtain ⟨b, f⟩ := p
    simp only [chainRecs, List.map_cons, ih]

theorem chainRecs_magic (prev t : Nat) (st : List (Nat × Nat)) :
    ∀ p ∈ chainRecs prev st t, p.2.magic = magicV := by
  induction st generalizing prev with
  | nil => intro p hp; cases hp
  | cons q rest ih =>
    obtain ⟨b, f⟩ := q
    intro p hp
    simp only [chainRecs, List.mem_cons] at hp
    rcases hp with h | h
    · rw [h]
    · exact ih b p h

theorem chainRecs_append (prev t : Nat) (l1 l2 : List (Nat × Nat)) :
    chainRecs prev (l1 ++ l2) t =
      chainRecs prev l1 (nextBody l2 t) ++ chainRecs (lastBase l1 prev) l2 t := by
  induction l1 generalizing prev with
  | nil => rfl
  | cons p l1t ih =>
    obtain ⟨b, f⟩ := p
    have hnb : nextBody (l1t ++ l2) t = nextBody l1t (nextBody l2 t) := by
      cases l1t with
      | nil => rfl
      | cons q l1tt => obtain ⟨b2, f2⟩ := q; rfl
    simp only [List.cons_append, chainRecs, List.append_eq, hnb, ih, lastBase]

theorem findSome?_base_magic (l : List (Nat × HookRec)) (b : Nat)
    (hb : b ∈ l.map Prod.fst) (hmag : ∀ p ∈ l, p.2.magic = magicV)
    (hsep : ∀ p ∈ l, p.1 = b ∨ b < p.1 ∨ p.1 + hdrSize ≤ b) :
    l.findSome? (hookFieldRead b) = some magicV := by
  induction l with
  | nil => cases hb
  | cons p t ih =>
    by_cases hh : p.1 = b
    · have : hookFieldRead b p = some p.2.magic := by
        rw [show p = (p.1, p.2) from rfl, hh]
        exact hookFieldRead_base b p.2
      simp only [List.findSome?, this, hmag p (by simp)]
    · have hfar : hookFieldRead b p = none := by
        rcases hsep p (by simp) with h | h | h
        · exact absurd h hh
        · exact hookFieldRead_of_far b p.1 p.2 (Or.inl h)
        · exact hookFieldRead_of_far b p.1 p.2 (Or.inr h)
      simp only [List.findSome?, hfar]
      refine ih ?_ (fun q hq => hmag q (by simp [hq]))
        (fun q hq => hsep q (by simp [hq]))
      simp only [List.map_cons, List.mem_cons] at hb
      rcases hb with h | h
      · exact absurd h.symm hh
      · exact h

theorem lookup_append_hook (l1 l2 : List (Nat × HookRec)) (n : Nat) :
    (l1 ++ l2).lookup n =
      match l1.lookup n with
      | some v => some v
      | none => l2.lookup n := by
  induction l1 with
  | nil => simp [List.lookup]
  | cons p t ih =>
    by_cases h : n == p.1
    · simp [List.lookup, h]
    · simp only [List.cons_append, List.lookup, h]
      exact ih

theorem lookup_none_of_not_mem (l : List (Nat × HookRec)) (n : Nat)
    (h : n ∉ l.map Prod.fst) : l.lookup n = none := by
  induction l with
  | nil => rfl
  | cons p t ih =>
    simp only [List.map_cons, List.mem_cons] at h
    push_neg at h
    have hne : (n == p.1) = false := by
      simp [h.1]
    simp only [List.lookup, hne]
    exact ih h.2

theorem lookup_cons_self (b : Nat) (r : HookRec) (t : List (Nat × HookRec)) :
    ((b, r) :: t).lookup b = some r := by
  simp [List.lookup]

theorem hookFieldRead_prevField (b : Nat) (r : HookRec) :
    hookFieldRead (b + prevOff) (b, r) = some r.previous := by
  unfold hookFieldRead prevOff
  have h1 : ¬ b + 24 = b := by omega
  simp [h1]

theorem hookFieldRead_fnHookedField (b : Nat) (r : HookRec) :
    hookFieldRead (b + fnHookedOff) (b, r) = some r.fnHooked := by
  unfold hookFieldRead prevOff fnNewOff fnHookedOff
  have h1 : ¬ b + 40 = b := by omega
  have h2 : ¬ b + 40 = b + 24 := by omega
  have h3 : ¬ b + 40 = b + 32 := by omega
  simp [h1, h2, h3]

/-- Symmetry of the separation relation. -/
theorem sepRel_symm : Symmetric sepRel := by
  intro a b h
  rcases h with h | h
  · exact Or.inr h
  · exact Or.inl h

theorem nodup_of_pairwise_sep (l : List Nat) (h : l.Pairwise sepRel) : l.Nodup := by
  refine h.imp ?_
  intro a b hab
  unfold sepRel hdrSize at hab
  omega

/-- Installing onto the slot of a well-formed chain state (with the
fresh base `h` separated from the slot, the existing bases and `F0`)
yields exactly the well-formed chain state with the new hook on top. -/
theorem install_mkChain (sa F0 : Nat) (amb : Nat → Nat) (st : List (Nat × Nat)) (fn h : Nat)
    (G : GoodAddrs sa F0 (h :: st.map Prod.fst) amb) :
    installG allOk magicV hdrSize sa fn h (mkChain sa F0 amb st) =
      mkChain sa F0 amb ((h, fn) :: st) := by
  obtain ⟨hsep, hf0lo, hf0sep, hf0amb, hf0mag, hbodymag⟩ := G
  rw [List.pairwise_cons] at hsep
  obtain ⟨hsaB, hsep1⟩ := hsep
  rw [List.pairwise_cons] at hsep1
  obtain ⟨hhB, hsepBase⟩ := hsep1
  have hf0lo' : 112 ≤ F0 := hf0lo
  cases st with
  | nil =>
    have hf0sa : sa + 112 ≤ F0 ∨ F0 + 56 ≤ sa := hf0sep sa (by simp)
    have hf0h : h + 112 ≤ F0 ∨ F0 + 56 ≤ h := hf0sep h (by simp)
    have hprobe_sa : ¬ (F0 - hdrSize = sa) := by
      show ¬ (F0 - 56 = sa); omega
    have hprobe_h : hookFieldRead (F0 - hdrSize)
        (h, ⟨magicV, sa, fn, F0⟩) = none := by
      apply hookFieldRead_of_far
      show F0 - 56 < h ∨ h + 56 ≤ F0 - 56
      omega
    have hc : ¬ (magicV = amb (F0 - hdrSize)) := fun hh => hf0amb hh.symm
    simp only [installG, mkChain, nextBody, chainRecs, allOk, rdataWrite, readPtr,
      writePtr, if_true, if_pos rfl, List.findSome?_cons, hprobe_h,
      if_neg hprobe_sa, hc, if_false, List.findSome?_nil]
  | cons p st' =>
    obtain ⟨b0, g0⟩ := p
    have hsab0 : sa + 56 ≤ b0 ∨ b0 + 56 ≤ sa := hsaB b0 (by simp)
    have hhb0 : h + 56 ≤ b0 ∨ b0 + 56 ≤ h := hhB b0 (by simp)
    have hb0rest : ∀ q ∈ st'.map Prod.fst, b0 + 56 ≤ q ∨ q + 56 ≤ b0 := by
      intro q hq
      exact (List.pairwise_cons.mp hsepBase).1 q hq
    -- `prevAddr` is the base of the current top hook
    have hpa : nextBody ((b0, g0) :: st') F0 - hdrSize = b0 := by
      simp [nextBody, hdrSize]
    -- the probe read finds the top hook's magic
    have hb0_sa : ¬ (b0 = sa) := by omega
    have hread : List.findSome? (hookFieldRead b0)
        ((h, (⟨magicV, sa, fn, nextBody ((b0, g0) :: st') F0⟩ : HookRec)) ::
          chainRecs sa ((b0, g0) :: st') F0) = some magicV := by
      apply findSome?_base_magic
      · simp [chainRecs_fst]
      · intro q hq
        rcases List.mem_cons.mp hq with hq1 | hq2
        · rw [hq1]
        · exact chainRecs_magic _ _ _ q hq2
      · intro q hq
        rcases List.mem_cons.mp hq with hq1 | hq2
        · rw [hq1]
          show h = b0 ∨ b0 < h ∨ h + 56 ≤ b0
          omega
        · have hqmem : q.1 ∈ ((b0, g0) :: st').map Prod.fst := by
            have hf := chainRecs_fst sa F0 ((b0, g0) :: st')
            rw [← hf]
            exact List.mem_map_of_mem Prod.fst hq2
          rcases List.mem_cons.mp hqmem with hq3 | hq4
          · left; exact hq3
          · have := hb0rest q.1 hq4
            show q.1 = b0 ∨ b0 < q.1 ∨ q.1 + 56 ≤ b0
            omega
    -- the `previous` write lands exactly on the top hook's field
    have hb024_sa : ¬ (b0 + prevOff = sa) := by
      show ¬ (b0 + 24 = sa); omega
    have hupd_h : hookFieldUpd (b0 + prevOff) h
        (h, (⟨magicV, sa, fn, nextBody ((b0, g0) :: st') F0⟩ : HookRec)) =
        (h, ⟨magicV, sa, fn, nextBody ((b0, g0) :: st') F0⟩) := by
      apply hookFieldUpd_of_far
      show b0 + 24 < h ∨ h + 56 ≤ b0 + 24
      omega
    have hupd_rest : (chainRecs b0 st' F0).map (hookFieldUpd (b0 + prevOff) h) =
        chainRecs b0 st' F0 := by
      apply map_hookFieldUpd_id
      intro q hq
      apply hookFieldRead_of_far
      have hqmem : q.1 ∈ st'.map Prod.fst := by
        have hf := chainRecs_fst b0 F0 st'
        rw [← hf]
        exact List.mem_map_of_mem Prod.fst hq
      have := hb0rest q.1 hqmem
      show b0 + 24 < q.1 ∨ q.1 + 56 ≤ b0 + 24
      omega
    have hany : ((h, (⟨magicV, sa, fn, nextBody ((b0, g0) :: st') F0⟩ : HookRec)) ::
          chainRecs sa ((b0, g0) :: st') F0).any
          (fun p => (hookFieldRead (b0 + prevOff) p).isSome) = true := by
      apply List.any_eq_true.mpr
      refine ⟨((b0, (⟨magicV, sa, g0, nextBody st' F0⟩ : HookRec)) : Nat × HookRec), ?_, ?_⟩
      · simp [chainRecs]
      · rw [hookFieldRead_prevField]
        rfl
    simp only [installG, mkChain, allOk, rdataWrite, if_true]
    rw [show readPtr (Mem.mk sa (nextBody ((b0, g0) :: st') F0)
          (chainRecs sa ((b0, g0) :: st') F0) amb) sa =
        nextBody ((b0, g0) :: st') F0 from by simp [readPtr]]
    rw [hpa]
    rw [show readPtr (Mem.mk sa (nextBody ((b0, g0) :: st') F0)
          ((h, (⟨magicV, sa, fn, nextBody ((b0, g0) :: st') F0⟩ : HookRec)) ::
            chainRecs sa ((b0, g0) :: st') F0) amb) b0 = magicV from by
      unfold readPtr
      rw [if_neg hb0_sa, hread]]
    rw [if_pos rfl]
    rw [show writePtr (Mem.mk sa (nextBody ((b0, g0) :: st') F0)
          ((h, (⟨magicV, sa, fn, nextBody ((b0, g0) :: st') F0⟩ : HookRec)) ::
            chainRecs sa ((b0, g0) :: st') F0) amb) (b0 + prevOff) h =
        Mem.mk sa (nextBody ((b0, g0) :: st') F0)
          ((h, (⟨magicV, sa, fn, nextBody ((b0, g0) :: st') F0⟩ : HookRec)) ::
            chainRecs h ((b0, g0) :: st') F0) amb from by
      unfold writePtr
      rw [if_neg hb024_sa, if_pos hany]
      simp only [List.map_cons, hupd_h]
      congr 2
      simp only [chainRecs, List.map_cons, hookFieldUpd_prevField, hupd_rest]]
    unfold writePtr
    rw [if_pos rfl]
    simp [mkChain, chainRecs, nextBody]

theorem nextBody_cons (b f F0 : Nat) (t : List (Nat × Nat)) :
    nextBody ((b, f) :: t) F0 = b + hdrSize := rfl

theorem nextBody_nil (F0 : Nat) : nextBody [] F0 = F0 := rfl

theorem chainRecs_cons (prev b f F0 : Nat) (t : List (Nat × Nat)) :
    chainRecs prev ((b, f) :: t) F0 =
      (b, ⟨magicV, prev, f, nextBody t F0⟩) :: chainRecs b t F0 := rfl

theorem chainRecs_nil (prev F0 : Nat) : chainRecs prev [] F0 = [] := rfl

theorem nextBody_irrel (l : List (Nat × Nat)) (q : Nat × Nat)
    (l2 l3 : List (Nat × Nat)) (t t2 : Nat) :
    nextBody (l ++ q :: l2) t = nextBody (l ++ q :: l3) t2 := by
  cases l with
  | nil => obtain ⟨a, b⟩ := q; rfl
  | cons r tl => obtain ⟨a, b⟩ := r; rfl

theorem lastBase_concat (l : List (Nat × Nat)) (q : Nat × Nat) (d : Nat) :
    lastBase (l ++ [q]) d = q.1 := by
  induction l generalizing d with
  | nil => obtain ⟨a, b⟩ := q; rfl
  | cons p t ih => obtain ⟨a, b⟩ := p; simpa [lastBase] using ih a

theorem lastBase_append (l1 l2 : List (Nat × Nat)) (d : Nat) :
    lastBase (l1 ++ l2) d = lastBase l2 (lastBase l1 d) := by
  induction l1 generalizing d with
  | nil => rfl
  | cons p t ih => obtain ⟨a, b⟩ := p; simpa [lastBase] using ih a

theorem filter_ne_of_not_mem (l : List (Nat × HookRec)) (x : Nat)
    (h : x ∉ l.map Prod.fst) : l.filter (fun p => p.1 ≠ x) = l := by
  rw [List.filter_eq_self]
  intro p hp
  have hne : p.1 ≠ x := fun hh => h (hh ▸ List.mem_map_of_mem Prod.fst hp)
  simp [hne]

/-- Uninstalling the only hook of a one-hook chain restores the slot to
the original `F0` and frees the allocation. -/
theorem unhook_single (sa F0 x fx : Nat) (amb : Nat → Nat)
    (G : GoodAddrs sa F0 [x] amb) :
    unhookG allOk hdrSize (some x) (mkChain sa F0 amb [(x, fx)]) =
      mkChain sa F0 amb [] := by
  obtain ⟨hsep, hf0lo, hf0sep, hf0amb, hf0mag, hbodymag⟩ := G
  have hsax : sa + 56 ≤ x ∨ x + 56 ≤ sa := (List.pairwise_cons.mp hsep).1 x (by simp)
  have hf0sa : sa + 112 ≤ F0 ∨ F0 + 56 ≤ sa := hf0sep sa (by simp)
  have hf0x : x + 112 ≤ F0 ∨ F0 + 56 ≤ x := hf0sep x (by simp)
  have hxmag : x + 56 ≠ magicV := hbodymag x (by simp)
  have hf0lo' : (112 : Nat) ≤ F0 := hf0lo
  simp only [unhookG, mkChain, nextBody, chainRecs, lookup_cons_self]
  have hcond1 : ¬ (magicV = readPtr
      (Mem.mk sa (x + hdrSize) [(x, ⟨magicV, sa, fx, F0⟩)] amb) (F0 - hdrSize)) := by
    rw [readPtr_ambient]
    · exact fun hh => hf0amb hh.symm
    · show ¬ (F0 - hdrSize = sa)
      show ¬ (F0 - 56 = sa)
      omega
    · intro p hp
      rw [List.mem_singleton.mp hp]
      apply hookFieldRead_of_far
      show F0 - 56 < x ∨ x + 56 ≤ F0 - 56
      omega
  rw [if_neg hcond1]
  have hcond2 : ¬ (magicV = readPtr
      (Mem.mk sa (x + hdrSize) [(x, ⟨magicV, sa, fx, F0⟩)] amb) sa) := by
    rw [show readPtr (Mem.mk sa (x + hdrSize) [(x, ⟨magicV, sa, fx, F0⟩)] amb) sa =
        x + hdrSize from by simp [readPtr]]
    exact fun hh => hxmag hh.symm
  rw [if_neg hcond2]
  simp only [rdataWrite, allOk, if_true]
  unfold writePtr
  rw [if_pos rfl]
  simp [mkChain, nextBody, chainRecs]

/-- Uninstalling the top (newest) hook of a longer chain hands the slot
to the hook below it. -/
theorem unhook_top (sa F0 x fx y fy : Nat) (ys2 : List (Nat × Nat)) (amb : Nat → Nat)
    (G : GoodAddrs sa F0 (x :: y :: ys2.map Prod.fst) amb) :
    unhookG allOk hdrSize (some x) (mkChain sa F0 amb ((x, fx) :: (y, fy) :: ys2)) =
      mkChain sa F0 amb ((y, fy) :: ys2) := by
  obtain ⟨hsep, hf0lo, hf0sep, hf0amb, hf0mag, hbodymag⟩ := G
  rw [List.pairwise_cons] at hsep
  obtain ⟨hsaB, hsep1⟩ := hsep
  rw [List.pairwise_cons] at hsep1
  obtain ⟨hxB, hsep2⟩ := hsep1
  rw [List.pairwise_cons] at hsep2
  obtain ⟨hyB, hsep3⟩ := hsep2
  have hsax : sa + 56 ≤ x ∨ x + 56 ≤ sa := hsaB x (by simp)
  have hsay : sa + 56 ≤ y ∨ y + 56 ≤ sa := hsaB y (by simp)
  have hxy : x + 56 ≤ y ∨ y + 56 ≤ x := hxB y (by simp)
  have hxmag : x + 56 ≠ magicV := hbodymag x (by simp)
  have hy_sa : ¬ (y = sa) := by omega
  simp only [unhookG, mkChain, nextBody_cons, chainRecs_cons, lookup_cons_self,
    Nat.add_sub_cancel]
  have hcond1 : magicV = readPtr (Mem.mk sa (x + hdrSize)
      ((x, (⟨magicV, sa, fx, y + hdrSize⟩ : HookRec)) ::
        (y, (⟨magicV, x, fy, nextBody ys2 F0⟩ : HookRec)) ::
        chainRecs y ys2 F0) amb) y := by
    rw [readPtr_of_findSome]
    · exact hy_sa
    · apply findSome?_base_magic
      · simp
      · intro q hq
        rcases List.mem_cons.mp hq with hq1 | hq2
        · rw [hq1]
        · rcases List.mem_cons.mp hq2 with hq3 | hq4
          · rw [hq3]
          · exact chainRecs_magic _ _ _ q hq4
      · intro q hq
        rcases List.mem_cons.mp hq with hq1 | hq2
        · rw [hq1]
          show x = y ∨ y < x ∨ x + 56 ≤ y
          omega
        · rcases List.mem_cons.mp hq2 with hq3 | hq4
          · rw [hq3]; left; rfl
          · have hqmem : q.1 ∈ ys2.map Prod.fst := by
              have hf := chainRecs_fst y F0 ys2
              rw [← hf]
              exact List.mem_map_of_mem Prod.fst hq4
            have := hyB q.1 hqmem
            show q.1 = y ∨ y < q.1 ∨ q.1 + 56 ≤ y
            unfold sepRel hdrSize at this
            omega
  rw [if_pos hcond1]
  have hy24_sa : ¬ (y + prevOff = sa) := by
    show ¬ (y + 24 = sa); omega
  have hupd_x : hookFieldUpd (y + prevOff) sa
      (x, (⟨magicV, sa, fx, y + hdrSize⟩ : HookRec)) =
      (x, ⟨magicV, sa, fx, y + hdrSize⟩) := by
    apply hookFieldUpd_of_far
    show y + 24 < x ∨ x + 56 ≤ y + 24
    omega
  have hupd_rest : (chainRecs y ys2 F0).map (hookFieldUpd (y + prevOff) sa) =
      chainRecs y ys2 F0 := by
    apply map_hookFieldUpd_id
    intro q hq
    apply hookFieldRead_of_far
    have hqmem : q.1 ∈ ys2.map Prod.fst := by
      have hf := chainRecs_fst y F0 ys2
      rw [← hf]
      exact List.mem_map_of_mem Prod.fst hq
    have := hyB q.1 hqmem
    show y + 24 < q.1 ∨ q.1 + 56 ≤ y + 24
    unfold sepRel hdrSize at this
    omega
  have hany : (((x, (⟨magicV, sa, fx, y + hdrSize⟩ : HookRec)) ::
        (y, (⟨magicV, x, fy, nextBody ys2 F0⟩ : HookRec)) ::
        chainRecs y ys2 F0).any
        (fun p => (hookFieldRead (y + prevOff) p).isSome)) = true := by
    apply List.any_eq_true.mpr
    refine ⟨((y, (⟨magicV, x, fy, nextBody ys2 F0⟩ : HookRec)) : Nat × HookRec), ?_, ?_⟩
    · simp
    · rw [hookFieldRead_prevField]
      rfl
  simp only [rdataWrite, allOk, if_true]
  rw [show writePtr (Mem.mk sa (x + hdrSize)
        ((x, (⟨magicV, sa, fx, y + hdrSize⟩ : HookRec)) ::
          (y, (⟨magicV, x, fy, nextBody ys2 F0⟩ : HookRec)) ::
          chainRecs y ys2 F0) amb) (y + prevOff) sa =
      Mem.mk sa (x + hdrSize)
        ((x, (⟨magicV, sa, fx, y + hdrSize⟩ : HookRec)) ::
          (y, (⟨magicV, sa, fy, nextBody ys2 F0⟩ : HookRec)) ::
          chainRecs y ys2 F0) amb from by
    unfold writePtr
    rw [if_neg hy24_sa, if_pos hany]
    simp only [List.map_cons, hupd_x, hookFieldUpd_prevField, hupd_rest]]
  have hcond2 : ¬ (magicV = readPtr (Mem.mk sa (x + hdrSize)
      ((x, (⟨magicV, sa, fx, y + hdrSize⟩ : HookRec)) ::
        (y, (⟨magicV, sa, fy, nextBody ys2 F0⟩ : HookRec)) ::
        chainRecs y ys2 F0) amb) sa) := by
    rw [show readPtr (Mem.mk sa (x + hdrSize)
        ((x, (⟨magicV, sa, fx, y + hdrSize⟩ : HookRec)) ::
          (y, (⟨magicV, sa, fy, nextBody ys2 F0⟩ : HookRec)) ::
          chainRecs y ys2 F0) amb) sa = x + hdrSize from by simp [readPtr]]
    exact fun hh => hxmag hh.symm
  rw [if_neg hcond2]
  unfold writePtr
  rw [if_pos rfl]
  have hfilt : (chainRecs y ys2 F0).filter (fun p => p.1 ≠ x) = chainRecs y ys2 F0 := by
    apply filter_ne_of_not_mem
    rw [chainRecs_fst]
    intro hmem
    have := hxB x (List.mem_cons_of_mem _ hmem)
    unfold sepRel hdrSize at this
    omega
  have hynx : ¬ (y = x) := by omega
  simp only [List.filter_cons, hfilt, hynx, mkChain, chainRecs_cons, nextBody_cons]
  simp [hynx, hfilt]

/-- Uninstalling the bottom (oldest) hook of a longer chain hands its
original `F0` to the hook just above it; the slot is untouched. -/
theorem unhook_bottom (sa F0 x fx p fp : Nat) (xs2 : List (Nat × Nat)) (amb : Nat → Nat)
    (G : GoodAddrs sa F0 (xs2.map Prod.fst ++ [p, x]) amb) :
    unhookG allOk hdrSize (some x) (mkChain sa F0 amb (xs2 ++ [(p, fp), (x, fx)])) =
      mkChain sa F0 amb (xs2 ++ [(p, fp)]) := by
  obtain ⟨hsep, hf0lo, hf0sep, hf0amb, hf0mag, hbodymag⟩ := G
  rw [List.pairwise_cons] at hsep
  obtain ⟨hsaB, hsep1⟩ := hsep
  rw [List.pairwise_append] at hsep1
  obtain ⟨hxs2PW, hpxPW, hcross⟩ := hsep1
  have hpx : p + 56 ≤ x ∨ x + 56 ≤ p := (List.pairwise_cons.mp hpxPW).1 x (by simp)
  have hsap : sa + 56 ≤ p ∨ p + 56 ≤ sa := hsaB p (by simp)
  have hsax : sa + 56 ≤ x ∨ x + 56 ≤ sa := hsaB x (by simp)
  have hf0sa : sa + 112 ≤ F0 ∨ F0 + 56 ≤ sa := hf0sep sa (by simp)
  have hf0p : p + 112 ≤ F0 ∨ F0 + 56 ≤ p := hf0sep p (by simp)
  have hf0x : x + 112 ≤ F0 ∨ F0 + 56 ≤ x := hf0sep x (by simp)
  have hf0lo' : (112 : Nat) ≤ F0 := hf0lo
  have hxs2sep : ∀ q ∈ xs2.map Prod.fst, (q + 56 ≤ p ∨ p + 56 ≤ q) ∧
      (q + 56 ≤ x ∨ x + 56 ≤ q) ∧ (q + 112 ≤ F0 ∨ F0 + 56 ≤ q) := by
    intro q hq
    refine ⟨hcross q hq p (by simp), hcross q hq x (by simp), hf0sep q (by simp [hq])⟩
  have hdec : chainRecs sa (xs2 ++ [(p, fp), (x, fx)]) F0 =
      chainRecs sa xs2 (p + hdrSize) ++
        ((p, (⟨magicV, lastBase xs2 sa, fp, x + hdrSize⟩ : HookRec)) ::
          (x, (⟨magicV, p, fx, F0⟩ : HookRec)) :: []) := by
    rw [chainRecs_append sa F0 xs2 [(p, fp), (x, fx)]]
    rfl
  have hmem_bases : ∀ q ∈ chainRecs sa xs2 (p + hdrSize), q.1 ∈ xs2.map Prod.fst := by
    intro q hq
    have hf := chainRecs_fst sa (p + hdrSize) xs2
    rw [← hf]
    exact List.mem_map_of_mem Prod.fst hq
  rw [show mkChain sa F0 amb (xs2 ++ [(p, fp), (x, fx)]) =
      Mem.mk sa (nextBody (xs2 ++ [(p, fp), (x, fx)]) F0)
        (chainRecs sa xs2 (p + hdrSize) ++
          ((p, (⟨magicV, lastBase xs2 sa, fp, x + hdrSize⟩ : HookRec)) ::
            (x, (⟨magicV, p, fx, F0⟩ : HookRec)) :: [])) amb from by
    unfold mkChain
    rw [hdec]]
  have hlk : (chainRecs sa xs2 (p + hdrSize) ++
      ((p, (⟨magicV, lastBase xs2 sa, fp, x + hdrSize⟩ : HookRec)) ::
        (x, (⟨magicV, p, fx, F0⟩ : HookRec)) :: [])).lookup x =
      some (⟨magicV, p, fx, F0⟩ : HookRec) := by
    rw [lookup_append_hook]
    rw [lookup_none_of_not_mem]
    · have hxp : (x == p) = false := by
        simp
        omega
      simp [List.lookup, hxp]
    · rw [chainRecs_fst]
      intro hmem
      have := (hxs2sep x hmem).2.1
      omega
  simp only [unhookG, hlk, Nat.add_sub_cancel]
  have hcond1 : ¬ (magicV = readPtr (Mem.mk sa (nextBody (xs2 ++ [(p, fp), (x, fx)]) F0)
      (chainRecs sa xs2 (p + hdrSize) ++
        ((p, (⟨magicV, lastBase xs2 sa, fp, x + hdrSize⟩ : HookRec)) ::
          (x, (⟨magicV, p, fx, F0⟩ : HookRec)) :: [])) amb) (F0 - hdrSize)) := by
    rw [readPtr_ambient]
    · exact fun hh => hf0amb hh.symm
    · show ¬ (F0 - 56 = sa)
      omega
    · intro q hq
      rcases List.mem_append.mp hq with hq1 | hq2
      · obtain ⟨qb, qr⟩ := q
        apply hookFieldRead_of_far
        have := (hxs2sep qb (hmem_bases _ hq1)).2.2
        show F0 - 56 < qb ∨ qb + 56 ≤ F0 - 56
        omega
      · rcases List.mem_cons.mp hq2 with hq3 | hq4
        · rw [hq3]
          apply hookFieldRead_of_far
          show F0 - 56 < p ∨ p + 56 ≤ F0 - 56
          omega
        · rw [List.mem_singleton.mp hq4]
          apply hookFieldRead_of_far
          show F0 - 56 < x ∨ x + 56 ≤ F0 - 56
          omega
  rw [if_neg hcond1]
  have hcond2 : magicV = readPtr (Mem.mk sa (nextBody (xs2 ++ [(p, fp), (x, fx)]) F0)
      (chainRecs sa xs2 (p + hdrSize) ++
        ((p, (⟨magicV, lastBase xs2 sa, fp, x + hdrSize⟩ : HookRec)) ::
          (x, (⟨magicV, p, fx, F0⟩ : HookRec)) :: [])) amb) p := by
    rw [readPtr_of_findSome]
    · show ¬ (p = sa)
      omega
    · apply findSome?_base_magic
      · simp
      · intro q hq
        rcases List.mem_append.mp hq with hq1 | hq2
        · exact chainRecs_magic _ _ _ q hq1
        · rcases List.mem_cons.mp hq2 with hq3 | hq4
          · rw [hq3]
          · rw [List.mem_singleton.mp hq4]
      · intro q hq
        rcases List.mem_append.mp hq with hq1 | hq2
        · have := (hxs2sep q.1 (hmem_bases _ hq1)).1
          show q.1 = p ∨ p < q.1 ∨ q.1 + 56 ≤ p
          omega
        · rcases List.mem_cons.mp hq2 with hq3 | hq4
          · rw [hq3]; left; rfl
          · rw [List.mem_singleton.mp hq4]
            show x = p ∨ p < x ∨ x + 56 ≤ p
            omega
  rw [if_pos hcond2]
  simp only [rdataWrite, allOk, if_true]
  have hp40_sa : ¬ (p + fnHookedOff = sa) := by
    show ¬ (p + 40 = sa); omega
  have hany : ((chainRecs sa xs2 (p + hdrSize) ++
      ((p, (⟨magicV, lastBase xs2 sa, fp, x + hdrSize⟩ : HookRec)) ::
        (x, (⟨magicV, p, fx, F0⟩ : HookRec)) :: [])).any
      (fun q => (hookFieldRead (p + fnHookedOff) q).isSome)) = true := by
    apply List.any_eq_true.mpr
    refine ⟨((p, (⟨magicV, lastBase xs2 sa, fp, x + hdrSize⟩ : HookRec)) : Nat × HookRec),
      by simp, ?_⟩
    rw [hookFieldRead_fnHookedField]
    rfl
  have hupd_front : (chainRecs sa xs2 (p + hdrSize)).map
      (hookFieldUpd (p + fnHookedOff) F0) = chainRecs sa xs2 (p + hdrSize) := by
    apply map_hookFieldUpd_id
    intro q hq
    obtain ⟨qb, qr⟩ := q
    apply hookFieldRead_of_far
    have := (hxs2sep qb (hmem_bases _ hq)).1
    show p + 40 < qb ∨ qb + 56 ≤ p + 40
    omega
  have hupd_x : hookFieldUpd (p + fnHookedOff) F0
      (x, (⟨magicV, p, fx, F0⟩ : HookRec)) = (x, ⟨magicV, p, fx, F0⟩) := by
    apply hookFieldUpd_of_far
    show p + 40 < x ∨ x + 56 ≤ p + 40
    omega
  rw [show writePtr (Mem.mk sa (nextBody (xs2 ++ [(p, fp), (x, fx)]) F0)
        (chainRecs sa xs2 (p + hdrSize) ++
          ((p, (⟨magicV, lastBase xs2 sa, fp, x + hdrSize⟩ : HookRec)) ::
            (x, (⟨magicV, p, fx, F0⟩ : HookRec)) :: [])) amb) (p + fnHookedOff) F0 =
      Mem.mk sa (nextBody (xs2 ++ [(p, fp), (x, fx)]) F0)
        (chainRecs sa xs2 (p + hdrSize) ++
          ((p, (⟨magicV, lastBase xs2 sa, fp, F0⟩ : HookRec)) ::
            (x, (⟨magicV, p, fx, F0⟩ : HookRec)) :: [])) amb from by
    unfold writePtr
    rw [if_neg hp40_sa, if_pos hany]
    simp only [List.map_append, List.map_cons, List.map_nil, hupd_front, hupd_x,
      hookFieldUpd_fnHookedField]]
  have hfilt_front : (chainRecs sa xs2 (p + hdrSize)).filter (fun q => q.1 ≠ x) =
      chainRecs sa xs2 (p + hdrSize) := by
    apply filter_ne_of_not_mem
    rw [chainRecs_fst]
    intro hmem
    have := (hxs2sep x hmem).2.1
    omega
  have hpnx : ¬ (p = x) := by omega
  have hgoal_hooks : ((chainRecs sa xs2 (p + hdrSize) ++
      ((p, (⟨magicV, lastBase xs2 sa, fp, F0⟩ : HookRec)) ::
        (x, (⟨magicV, p, fx, F0⟩ : HookRec)) :: [])).filter (fun q => q.1 ≠ x)) =
      chainRecs sa (xs2 ++ [(p, fp)]) F0 := by
    rw [List.filter_append, hfilt_front]
    rw [chainRecs_append sa F0 xs2 [(p, fp)]]
    simp only [List.filter_cons, hpnx]
    simp [hpnx]
    rfl
  simp only [hgoal_hooks]
  unfold mkChain
  rw [nextBody_irrel xs2 (p, fp) [(x, fx)] [] F0 F0]

/-- Uninstalling a middle hook of a chain splices its neighbours
together: the hook below gets redirected to the hook above, and the
hook above now calls what the removed hook used to call. -/
theorem unhook_middle (sa F0 x fx p fp y fy : Nat) (xs2 ys2 : List (Nat × Nat))
    (amb : Nat → Nat)
    (G : GoodAddrs sa F0 (xs2.map Prod.fst ++ p :: x :: y :: ys2.map Prod.fst) amb) :
    unhookG allOk hdrSize (some x)
        (mkChain sa F0 amb (xs2 ++ (p, fp) :: (x, fx) :: (y, fy) :: ys2)) =
      mkChain sa F0 amb (xs2 ++ (p, fp) :: (y, fy) :: ys2) := by
  obtain ⟨hsep, hf0lo, hf0sep, hf0amb, hf0mag, hbodymag⟩ := G
  have hnd := nodup_of_pairwise_sep _ hsep
  have hforall := List.Pairwise.forall sepRel_symm hsep
  rw [List.nodup_cons] at hnd
  obtain ⟨hsanm, hnd1⟩ := hnd
  rw [List.nodup_append] at hnd1
  obtain ⟨hndxs2, hndrest, hdisj⟩ := hnd1
  rw [List.nodup_cons] at hndrest
  obtain ⟨hpnm, hndrest1⟩ := hndrest
  rw [List.nodup_cons] at hndrest1
  obtain ⟨hxnm, hndrest2⟩ := hndrest1
  rw [List.nodup_cons] at hndrest2
  obtain ⟨hynm, hndys⟩ := hndrest2
  -- named memberships in the full address list
  have msa : sa ∈ sa :: (xs2.map Prod.fst ++ p :: x :: y :: ys2.map Prod.fst) := by simp
  have mp : p ∈ sa :: (xs2.map Prod.fst ++ p :: x :: y :: ys2.map Prod.fst) := by simp
  have mx : x ∈ sa :: (xs2.map Prod.fst ++ p :: x :: y :: ys2.map Prod.fst) := by simp
  have my : y ∈ sa :: (xs2.map Prod.fst ++ p :: x :: y :: ys2.map Prod.fst) := by simp
  have mxs2 : ∀ q ∈ xs2.map Prod.fst,
      q ∈ sa :: (xs2.map Prod.fst ++ p :: x :: y :: ys2.map Prod.fst) := by
    intro q hq; simp [hq]
  have mys2 : ∀ q ∈ ys2.map Prod.fst,
      q ∈ sa :: (xs2.map Prod.fst ++ p :: x :: y :: ys2.map Prod.fst) := by
    intro q hq; simp [hq]
  -- named-to-named separations
  have hpx : p + 56 ≤ x ∨ x + 56 ≤ p :=
    hforall mp mx (by intro hh; exact hpnm (by simp [hh]))
  have hpy : p + 56 ≤ y ∨ y + 56 ≤ p :=
    hforall mp my (by intro hh; exact hpnm (by simp [hh]))
  have hxy : x + 56 ≤ y ∨ y + 56 ≤ x :=
    hforall mx my (by intro hh; exact hxnm (by simp [hh]))
  have hsap : sa + 56 ≤ p ∨ p + 56 ≤ sa :=
    hforall msa mp (by intro hh; exact hsanm (by simp [← hh]))
  have hsax : sa + 56 ≤ x ∨ x + 56 ≤ sa :=
    hforall msa mx (by intro hh; exact hsanm (by simp [← hh]))
  have hsay : sa + 56 ≤ y ∨ y + 56 ≤ sa :=
    hforall msa my (by intro hh; exact hsanm (by simp [← hh]))
  -- separations between quantified bases and named addresses
  have sxs2 : ∀ q ∈ xs2.map Prod.fst, (q + 56 ≤ p ∨ p + 56 ≤ q) ∧
      (q + 56 ≤ x ∨ x + 56 ≤ q) ∧ (q + 56 ≤ y ∨ y + 56 ≤ q) := by
    intro q hq
    have hqp : q ≠ p := fun hh => hdisj hq (by rw [hh]; simp)
    have hqx : q ≠ x := fun hh => hdisj hq (by rw [hh]; simp)
    have hqy : q ≠ y := fun hh => hdisj hq (by rw [hh]; simp)
    exact ⟨hforall (mxs2 q hq) mp hqp, hforall (mxs2 q hq) mx hqx,
      hforall (mxs2 q hq) my hqy⟩
  have sys2 : ∀ q ∈ ys2.map Prod.fst, (q + 56 ≤ p ∨ p + 56 ≤ q) ∧
      (q + 56 ≤ x ∨ x + 56 ≤ q) ∧ (q + 56 ≤ y ∨ y + 56 ≤ q) := by
    intro q hq
    have hqp : q ≠ p := fun hh => hpnm (by simp [← hh, hq])
    have hqx : q ≠ x := fun hh => hxnm (by simp [← hh, hq])
    have hqy : q ≠ y := fun hh => hynm (hh ▸ hq)
    exact ⟨hforall (mys2 q hq) mp hqp, hforall (mys2 q hq) mx hqx,
      hforall (mys2 q hq) my hqy⟩
  have hdec : chainRecs sa (xs2 ++ (p, fp) :: (x, fx) :: (y, fy) :: ys2) F0 =
      chainRecs sa xs2 (p + hdrSize) ++
        ((p, (⟨magicV, lastBase xs2 sa, fp, x + hdrSize⟩ : HookRec)) ::
          (x, (⟨magicV, p, fx, y + hdrSize⟩ : HookRec)) ::
          (y, (⟨magicV, x, fy, nextBody ys2 F0⟩ : HookRec)) ::
          chainRecs y ys2 F0) := by
    rw [show (xs2 ++ (p, fp) :: (x, fx) :: (y, fy) :: ys2) =
        (xs2 ++ [(p, fp), (x, fx), (y, fy)]) ++ ys2 from by simp]
    rw [chainRecs_append sa F0 (xs2 ++ [(p, fp), (x, fx), (y, fy)]) ys2]
    rw [chainRecs_append sa (nextBody ys2 F0) xs2 [(p, fp), (x, fx), (y, fy)]]
    rw [lastBase_append]
    cases ys2 with
    | nil => simp [chainRecs_cons, chainRecs_nil, nextBody_cons, nextBody_nil, lastBase]
    | cons z zs =>
      obtain ⟨zb, zf⟩ := z
      simp [chainRecs_cons, chainRecs_nil, nextBody_cons, nextBody_nil, lastBase]
  have hmem_xs2 : ∀ q ∈ chainRecs sa xs2 (p + hdrSize), q.1 ∈ xs2.map Prod.fst := by
    intro q hq
    have hf := chainRecs_fst sa (p + hdrSize) xs2
    rw [← hf]
    exact List.mem_map_of_mem Prod.fst hq
  have hmem_ys2 : ∀ q ∈ chainRecs y ys2 F0, q.1 ∈ ys2.map Prod.fst := by
    intro q hq
    have hf := chainRecs_fst y F0 ys2
    rw [← hf]
    exact List.mem_map_of_mem Prod.fst hq
  rw [show mkChain sa F0 amb (xs2 ++ (p, fp) :: (x, fx) :: (y, fy) :: ys2) =
      Mem.mk sa (nextBody (xs2 ++ (p, fp) :: (x, fx) :: (y, fy) :: ys2) F0)
        (chainRecs sa xs2 (p + hdrSize) ++
          ((p, (⟨magicV, lastBase xs2 sa, fp, x + hdrSize⟩ : HookRec)) ::
            (x, (⟨magicV, p, fx, y + hdrSize⟩ : HookRec)) ::
            (y, (⟨magicV, x, fy, nextBody ys2 F0⟩ : HookRec)) ::
            chainRecs y ys2 F0)) amb from by
    unfold mkChain
    rw [hdec]]
  have hlk : (chainRecs sa xs2 (p + hdrSize) ++
      ((p, (⟨magicV, lastBase xs2 sa, fp, x + hdrSize⟩ : HookRec)) ::
        (x, (⟨magicV, p, fx, y + hdrSize⟩ : HookRec)) ::
        (y, (⟨magicV, x, fy, nextBody ys2 F0⟩ : HookRec)) ::
        chainRecs y ys2 F0)).lookup x =
      some (⟨magicV, p, fx, y + hdrSize⟩ : HookRec) := by
    rw [lookup_append_hook]
    rw [lookup_none_of_not_mem]
    · have hxp : (x == p) = false := by
        simp
        omega
      simp [List.lookup, hxp]
    · rw [chainRecs_fst]
      intro hmem
      have := (sxs2 x hmem).2.1
      omega
  simp only [unhookG, hlk, Nat.add_sub_cancel]
  have hy_sa : ¬ (y = sa) := by omega
  have hcond1 : magicV = readPtr (Mem.mk sa
      (nextBody (xs2 ++ (p, fp) :: (x, fx) :: (y, fy) :: ys2) F0)
      (chainRecs sa xs2 (p + hdrSize) ++
        ((p, (⟨magicV, lastBase xs2 sa, fp, x + hdrSize⟩ : HookRec)) ::
          (x, (⟨magicV, p, fx, y + hdrSize⟩ : HookRec)) ::
          (y, (⟨magicV, x, fy, nextBody ys2 F0⟩ : HookRec)) ::
          chainRecs y ys2 F0)) amb) y := by
    rw [readPtr_of_findSome]
    · exact hy_sa
    · apply findSome?_base_magic
      · simp
      · intro q hq
        rcases List.mem_append.mp hq with hq1 | hq2
        · exact chainRecs_magic _ _ _ q hq1
        · rcases List.mem_cons.mp hq2 with hq3 | hq4
          · rw [hq3]
          · rcases List.mem_cons.mp hq4 with hq5 | hq6
            · rw [hq5]
            · rcases List.mem_cons.mp hq6 with hq7 | hq8
              · rw [hq7]
              · exact chainRecs_magic _ _ _ q hq8
      · intro q hq
        rcases List.mem_append.mp hq with hq1 | hq2
        · have := (sxs2 q.1 (hmem_xs2 _ hq1)).2.2
          show q.1 = y ∨ y < q.1 ∨ q.1 + 56 ≤ y
          omega
        · rcases List.mem_cons.mp hq2 with hq3 | hq4
          · rw [hq3]
            show p = y ∨ y < p ∨ p + 56 ≤ y
            omega
          · rcases List.mem_cons.mp hq4 with hq5 | hq6
            · rw [hq5]
              show x = y ∨ y < x ∨ x + 56 ≤ y
              omega
            · rcases List.mem_cons.mp hq6 with hq7 | hq8
              · rw [hq7]; left; rfl
              · have := (sys2 q.1 (hmem_ys2 _ hq8)).2.2
                show q.1 = y ∨ y < q.1 ∨ q.1 + 56 ≤ y
                omega
  rw [if_pos hcond1]
  simp only [rdataWrite, allOk, if_true]
  have hy24_sa : ¬ (y + prevOff = sa) := by
    show ¬ (y + 24 = sa); omega
  have hany1 : ((chainRecs sa xs2 (p + hdrSize) ++
      ((p, (⟨magicV, lastBase xs2 sa, fp, x + hdrSize⟩ : HookRec)) ::
        (x, (⟨magicV, p, fx, y + hdrSize⟩ : HookRec)) ::
        (y, (⟨magicV, x, fy, nextBody ys2 F0⟩ : HookRec)) ::
        chainRecs y ys2 F0)).any
      (fun q => (hookFieldRead (y + prevOff) q).isSome)) = true := by
    apply List.any_eq_true.mpr
    refine ⟨((y, (⟨magicV, x, fy, nextBody ys2 F0⟩ : HookRec)) : Nat × HookRec),
      by simp, ?_⟩
    rw [hookFieldRead_prevField]
    rfl
  have hupd1_front : (chainRecs sa xs2 (p + hdrSize)).map
      (hookFieldUpd (y + prevOff) p) = chainRecs sa xs2 (p + hdrSize) := by
    apply map_hookFieldUpd_id
    intro q hq
    obtain ⟨qb, qr⟩ := q
    apply hookFieldRead_of_far
    have := (sxs2 qb (hmem_xs2 _ hq)).2.2
    show y + 24 < qb ∨ qb + 56 ≤ y + 24
    omega
  have hupd1_p : hookFieldUpd (y + prevOff) p
      (p, (⟨magicV, lastBase xs2 sa, fp, x + hdrSize⟩ : HookRec)) =
      (p, ⟨magicV, lastBase xs2 sa, fp, x + hdrSize⟩) := by
    apply hookFieldUpd_of_far
    show y + 24 < p ∨ p + 56 ≤ y + 24
    omega
  have hupd1_x : hookFieldUpd (y + prevOff) p
      (x, (⟨magicV, p, fx, y + hdrSize⟩ : HookRec)) =
      (x, ⟨magicV, p, fx, y + hdrSize⟩) := by
    apply hookFieldUpd_of_far
    show y + 24 < x ∨ x + 56 ≤ y + 24
    omega
  have hupd1_rest : (chainRecs y ys2 F0).map (hookFieldUpd (y + prevOff) p) =
      chainRecs y ys2 F0 := by
    apply map_hookFieldUpd_id
    intro q hq
    obtain ⟨qb, qr⟩ := q
    apply hookFieldRead_of_far
    have := (sys2 qb (hmem_ys2 _ hq)).2.2
    show y + 24 < qb ∨ qb + 56 ≤ y + 24
    omega
  rw [show writePtr (Mem.mk sa
        (nextBody (xs2 ++ (p, fp) :: (x, fx) :: (y, fy) :: ys2) F0)
        (chainRecs sa xs2 (p + hdrSize) ++
          ((p, (⟨magicV, lastBase xs2 sa, fp, x + hdrSize⟩ : HookRec)) ::
            (x, (⟨magicV, p, fx, y + hdrSize⟩ : HookRec)) ::
            (y, (⟨magicV, x, fy, nextBody ys2 F0⟩ : HookRec)) ::
            chainRecs y ys2 F0)) amb) (y + prevOff) p =
      Mem.mk sa (nextBody (xs2 ++ (p, fp) :: (x, fx) :: (y, fy) :: ys2) F0)
        (chainRecs sa xs2 (p + hdrSize) ++
          ((p, (⟨magicV, lastBase xs2 sa, fp, x + hdrSize⟩ : HookRec)) ::
            (x, (⟨magicV, p, fx, y + hdrSize⟩ : HookRec)) ::
            (y, (⟨magicV, p, fy, nextBody ys2 F0⟩ : HookRec)) ::
            chainRecs y ys2 F0)) amb from by
    unfold writePtr
    rw [if_neg hy24_sa, if_pos hany1]
    simp only [List.map_append, List.map_cons, hupd1_front, hupd1_p, hupd1_x,
      hookFieldUpd_prevField, hupd1_rest]]
  have hcond2 : magicV = readPtr (Mem.mk sa
      (nextBody (xs2 ++ (p, fp) :: (x, fx) :: (y, fy) :: ys2) F0)
      (chainRecs sa xs2 (p + hdrSize) ++
        ((p, (⟨magicV, lastBase xs2 sa, fp, x + hdrSize⟩ : HookRec)) ::
          (x, (⟨magicV, p, fx, y + hdrSize⟩ : HookRec)) ::
          (y, (⟨magicV, p, fy, nextBody ys2 F0⟩ : HookRec)) ::
          chainRecs y ys2 F0)) amb) p := by
    rw [readPtr_of_findSome]
    · show ¬ (p = sa)
      omega
    · apply findSome?_base_magic
      · simp
      · intro q hq
        rcases List.mem_append.mp hq with hq1 | hq2
        · exact chainRecs_magic _ _ _ q hq1
        · rcases List.mem_cons.mp hq2 with hq3 | hq4
          · rw [hq3]
          · rcases List.mem_cons.mp hq4 with hq5 | hq6
            · rw [hq5]
            · rcases List.mem_cons.mp hq6 with hq7 | hq8
              · rw [hq7]
              · exact chainRecs_magic _ _ _ q hq8
      · intro q hq
        rcases List.mem_append.mp hq with hq1 | hq2
        · have := (sxs2 q.1 (hmem_xs2 _ hq1)).1
          show q.1 = p ∨ p < q.1 ∨ q.1 + 56 ≤ p
          omega
        · rcases List.mem_cons.mp hq2 with hq3 | hq4
          · rw [hq3]; left; rfl
          · rcases List.mem_cons.mp hq4 with hq5 | hq6
            · rw [hq5]
              show x = p ∨ p < x ∨ x + 56 ≤ p
              omega
            · rcases List.mem_cons.mp hq6 with hq7 | hq8
              · rw [hq7]
                show y = p ∨ p < y ∨ y + 56 ≤ p
                omega
              · have := (sys2 q.1 (hmem_ys2 _ hq8)).1
                show q.1 = p ∨ p < q.1 ∨ q.1 + 56 ≤ p
                omega
  rw [if_pos hcond2]
  have hp40_sa : ¬ (p + fnHookedOff = sa) := by
    show ¬ (p + 40 = sa); omega
  have hany2 : ((chainRecs sa xs2 (p + hdrSize) ++
      ((p, (⟨magicV, lastBase xs2 sa, fp, x + hdrSize⟩ : HookRec)) ::
        (x, (⟨magicV, p, fx, y + hdrSize⟩ : HookRec)) ::
        (y, (⟨magicV, p, fy, nextBody ys2 F0⟩ : HookRec)) ::
        chainRecs y ys2 F0)).any
      (fun q => (hookFieldRead (p + fnHookedOff) q).isSome)) = true := by
    apply List.any_eq_true.mpr
    refine ⟨((p, (⟨magicV, lastBase xs2 sa, fp, x + hdrSize⟩ : HookRec)) : Nat × HookRec),
      by simp, ?_⟩
    rw [hookFieldRead_fnHookedField]
    rfl
  have hupd2_front : (chainRecs sa xs2 (p + hdrSize)).map
      (hookFieldUpd (p + fnHookedOff) (y + hdrSize)) = chainRecs sa xs2 (p + hdrSize) := by
    apply map_hookFieldUpd_id
    intro q hq
    obtain ⟨qb, qr⟩ := q
    apply hookFieldRead_of_far
    have := (sxs2 qb (hmem_xs2 _ hq)).1
    show p + 40 < qb ∨ qb + 56 ≤ p + 40
    omega
  have hupd2_x : hookFieldUpd (p + fnHookedOff) (y + hdrSize)
      (x, (⟨magicV, p, fx, y + hdrSize⟩ : HookRec)) =
      (x, ⟨magicV, p, fx, y + hdrSize⟩) := by
    apply hookFieldUpd_of_far
    show p + 40 < x ∨ x + 56 ≤ p + 40
    omega
  have hupd2_y : hookFieldUpd (p + fnHookedOff) (y + hdrSize)
      (y, (⟨magicV, p, fy, nextBody ys2 F0⟩ : HookRec)) =
      (y, ⟨magicV, p, fy, nextBody ys2 F0⟩) := by
    apply hookFieldUpd_of_far
    show p + 40 < y ∨ y + 56 ≤ p + 40
    omega
  have hupd2_rest : (chainRecs y ys2 F0).map
      (hookFieldUpd (p + fnHookedOff) (y + hdrSize)) = chainRecs y ys2 F0 := by
    apply map_hookFieldUpd_id
    intro q hq
    obtain ⟨qb, qr⟩ := q
    apply hookFieldRead_of_far
    have := (sys2 qb (hmem_ys2 _ hq)).1
    show p + 40 < qb ∨ qb + 56 ≤ p + 40
    omega
  rw [show writePtr (Mem.mk sa
        (nextBody (xs2 ++ (p, fp) :: (x, fx) :: (y, fy) :: ys2) F0)
        (chainRecs sa xs2 (p + hdrSize) ++
          ((p, (⟨magicV, lastBase xs2 sa, fp, x + hdrSize⟩ : HookRec)) ::
            (x, (⟨magicV, p, fx, y + hdrSize⟩ : HookRec)) ::
            (y, (⟨magicV, p, fy, nextBody ys2 F0⟩ : HookRec)) ::
            chainRecs y ys2 F0)) amb) (p + fnHookedOff) (y + hdrSize) =
      Mem.mk sa (nextBody (xs2 ++ (p, fp) :: (x, fx) :: (y, fy) :: ys2) F0)
        (chainRecs sa xs2 (p + hdrSize) ++
          ((p, (⟨magicV, lastBase xs2 sa, fp, y + hdrSize⟩ : HookRec)) ::
            (x, (⟨magicV, p, fx, y + hdrSize⟩ : HookRec)) ::
            (y, (⟨magicV, p, fy, nextBody ys2 F0⟩ : HookRec)) ::
            chainRecs y ys2 F0)) amb from by
    unfold writePtr
    rw [if_neg hp40_sa, if_pos hany2]
    simp only [List.map_append, List.map_cons, hupd2_front, hupd2_x, hupd2_y,
      hookFieldUpd_fnHookedField, hupd2_rest]]
  have hfilt_front : (chainRecs sa xs2 (p + hdrSize)).filter (fun q => q.1 ≠ x) =
      chainRecs sa xs2 (p + hdrSize) := by
    apply filter_ne_of_not_mem
    rw [chainRecs_fst]
    intro hmem
    have := (sxs2 x hmem).2.1
    omega
  have hfilt_rest : (chainRecs y ys2 F0).filter (fun q => q.1 ≠ x) =
      chainRecs y ys2 F0 := by
    apply filter_ne_of_not_mem
    rw [chainRecs_fst]
    intro hmem
    have := (sys2 x hmem).2.1
    omega
  have hpnx : ¬ (p = x) := by omega
  have hynx : ¬ (y = x) := by omega
  have hgoal_hooks : ((chainRecs sa xs2 (p + hdrSize) ++
      ((p, (⟨magicV, lastBase xs2 sa, fp, y + hdrSize⟩ : HookRec)) ::
        (x, (⟨magicV, p, fx, y + hdrSize⟩ : HookRec)) ::
        (y, (⟨magicV, p, fy, nextBody ys2 F0⟩ : HookRec)) ::
        chainRecs y ys2 F0)).filter (fun q => q.1 ≠ x)) =
      chainRecs sa (xs2 ++ (p, fp) :: (y, fy) :: ys2) F0 := by
    rw [List.filter_append, hfilt_front]
    rw [show (xs2 ++ (p, fp) :: (y, fy) :: ys2) = (xs2 ++ [(p, fp), (y, fy)]) ++ ys2
      from by simp]
    rw [chainRecs_append sa F0 (xs2 ++ [(p, fp), (y, fy)]) ys2]
    rw [chainRecs_append sa (nextBody ys2 F0) xs2 [(p, fp), (y, fy)]]
    rw [lastBase_append]
    simp only [List.filter_cons, hpnx, hynx, hfilt_rest]
    simp [hpnx, hynx, hfilt_rest]
    rfl
  simp only [hgoal_hooks]
  unfold mkChain
  rw [nextBody_irrel xs2 (p, fp) ((x, fx) :: (y, fy) :: ys2) ((y, fy) :: ys2) F0 F0]

/-- Address sanity is preserved on any sublist of the trampoline bases
(hooks being uninstalled only shrink the set of live bases). -/
theorem goodAddrs_sublist (sa F0 : Nat) (bs bs2 : List Nat) (amb : Nat → Nat)
    (h : bs2.Sublist bs) (G : GoodAddrs sa F0 bs amb) : GoodAddrs sa F0 bs2 amb := by
  obtain ⟨hsep, hf0lo, hf0sep, hf0amb, hf0mag, hbodymag⟩ := G
  refine ⟨?_, hf0lo, ?_, hf0amb, hf0mag, ?_⟩
  · exact hsep.sublist (h.cons₂ sa)
  · intro b hb
    rcases List.mem_cons.mp hb with hb1 | hb2
    · exact hf0sep b (by simp [hb1])
    · exact hf0sep b (List.mem_cons_of_mem _ (h.subset hb2))
  · intro b hb
    exact hbodymag b (h.subset hb)

/-- Uninstalling any hook of a well-formed chain (top, middle or
bottom) yields exactly the well-formed chain without it. -/
theorem unhook_mkChain (sa F0 : Nat) (amb : Nat → Nat) (xs ys : List (Nat × Nat))
    (x fx : Nat)
    (G : GoodAddrs sa F0 ((xs ++ (x, fx) :: ys).map Prod.fst) amb) :
    unhookG allOk hdrSize (some x) (mkChain sa F0 amb (xs ++ (x, fx) :: ys)) =
      mkChain sa F0 amb (xs ++ ys) := by
  rcases List.eq_nil_or_concat' xs with hxs | ⟨xs2, q, hxs⟩
  · subst hxs
    cases ys with
    | nil => exact unhook_single sa F0 x fx amb G
    | cons q2 ys2 =>
      obtain ⟨y, fy⟩ := q2
      exact unhook_top sa F0 x fx y fy ys2 amb G
  · obtain ⟨p, fp⟩ := q
    subst hxs
    cases ys with
    | nil =>
      have hl : ((xs2 ++ [(p, fp)]) ++ (x, fx) :: ([] : List (Nat × Nat))) =
          xs2 ++ [(p, fp), (x, fx)] := by simp
      have hr : ((xs2 ++ [(p, fp)]) ++ ([] : List (Nat × Nat))) = xs2 ++ [(p, fp)] := by
        simp
      rw [hl, hr]
      have hG : GoodAddrs sa F0 (xs2.map Prod.fst ++ [p, x]) amb := by
        have hm : ((xs2 ++ [(p, fp)]) ++ (x, fx) :: ([] : List (Nat × Nat))).map Prod.fst =
            xs2.map Prod.fst ++ [p, x] := by simp
        rwa [hm] at G
      exact unhook_bottom sa F0 x fx p fp xs2 amb hG
    | cons q2 ys2 =>
      obtain ⟨y, fy⟩ := q2
      have hl : ((xs2 ++ [(p, fp)]) ++ (x, fx) :: (y, fy) :: ys2) =
          xs2 ++ (p, fp) :: (x, fx) :: (y, fy) :: ys2 := by simp
      have hr : ((xs2 ++ [(p, fp)]) ++ (y, fy) :: ys2) =
          xs2 ++ (p, fp) :: (y, fy) :: ys2 := by simp
      rw [hl, hr]
      have hG : GoodAddrs sa F0
          (xs2.map Prod.fst ++ p :: x :: y :: ys2.map Prod.fst) amb := by
        have hm : ((xs2 ++ [(p, fp)]) ++ (x, fx) :: (y, fy) :: ys2).map Prod.fst =
            xs2.map Prod.fst ++ p :: x :: y :: ys2.map Prod.fst := by simp
        rwa [hm] at G
      exact unhook_middle sa F0 x fx p fp y fy xs2 ys2 amb hG

/-- Destroying the handles of a well-formed chain in ANY order empties
the chain: the memory returns to the unhooked state, the slot holding
the original `F0`. -/
theorem unhookAll_perm (sa F0 : Nat) (amb : Nat → Nat) :
    ∀ (l : List Nat) (st : List (Nat × Nat)), l.Perm (st.map Prod.fst) →
      GoodAddrs sa F0 (st.map Prod.fst) amb →
      unhookAll l (mkChain sa F0 amb st) = mkChain sa F0 amb [] := by
  intro l
  induction l with
  | nil =>
    intro st hperm _
    have h1 : st.map Prod.fst = [] := (List.Perm.nil_eq hperm).symm
    have h2 : st = [] := List.map_eq_nil_iff.mp h1
    subst h2
    rfl
  | cons x l2 ih =>
    intro st hperm G
    have hx : x ∈ st.map Prod.fst := hperm.subset (by simp)
    obtain ⟨fx, hmem⟩ : ∃ fx, (x, fx) ∈ st := by
      rcases List.mem_map.mp hx with ⟨⟨a, b⟩, hab, hfst⟩
      exact ⟨b, by rwa [show a = x from hfst] at hab⟩
    obtain ⟨s, t, hst⟩ := List.append_of_mem hmem
    subst hst
    have hstep := unhook_mkChain sa F0 amb s t x fx G
    show unhookAll l2 (unhookG allOk hdrSize (some x)
      (mkChain sa F0 amb (s ++ (x, fx) :: t))) = mkChain sa F0 amb []
    rw [hstep]
    have hmap : (s ++ (x, fx) :: t).map Prod.fst =
        s.map Prod.fst ++ x :: t.map Prod.fst := by simp
    have hperm2 : l2.Perm ((s ++ t).map Prod.fst) := by
      rw [hmap] at hperm
      have h3 : (s.map Prod.fst ++ x :: t.map Prod.fst).Perm
          (x :: (s.map Prod.fst ++ t.map Prod.fst)) := List.perm_middle
      have h4 := (hperm.trans h3).cons_inv
      rw [List.map_append]
      exact h4
    have hsub : ((s ++ t).map Prod.fst).Sublist ((s ++ (x, fx) :: t).map Prod.fst) := by
      rw [hmap, List.map_append]
      exact List.Sublist.append_left (List.sublist_cons_self x _) _
    exact ih (s ++ t) hperm2 (goodAddrs_sublist sa F0 _ _ amb hsub G)

end VFTHook

namespace RTTIHookClaims

/-- C6: IBO32 round-trip.  For any base `B` and address `A` whose 64-bit
pointer difference from `B` fits a signed 32-bit integer, constructing
`ibo32` from `(A, B)` and converting back with base `B` yields `A`; and
for any other base `B2`, converting the ibo to an address with `B2` and
back to an ibo with `B2` yields the original ibo value. -/
theorem c6_ibo32_roundtrip (A B : Nat) (hA : A < PEParser.U64) (hB : B < PEParser.U64)
    (hwin : PEParser.sub64 A B < 2147483648 ∨
            PEParser.U64 - 2147483648 ≤ PEParser.sub64 A B) :
    PEParser.ibo32As (PEParser.ibo32OfAddr A B) B = A ∧
    ∀ B2 : Nat, B2 < PEParser.U64 →
      PEParser.ibo32OfAddr (PEParser.ibo32As (PEParser.ibo32OfAddr A B) B2) B2 =
        PEParser.ibo32OfAddr A B := by
  constructor
  · unfold PEParser.ibo32As PEParser.ibo32OfAddr PEParser.toI32 PEParser.sub64
      PEParser.U64 PEParser.U32 at *
    push_cast at *
    split <;> omega
  · intro B2 hB2
    have hb := PEParser.toI32_bounds (PEParser.sub64 A B)
    exact PEParser.ibo32_addr_roundtrip _ hb.1 hb.2 B2 hB2

/-- Witness for C6 at a concrete input: base 4096, address 4196. -/
theorem c6_ibo32_roundtrip_witness :
    PEParser.ibo32As (PEParser.ibo32OfAddr 4196 4096) 4096 = 4196 ∧
    PEParser.ibo32OfAddr (PEParser.ibo32As (PEParser.ibo32OfAddr 4196 4096) 65536) 65536 =
      PEParser.ibo32OfAddr 4196 4096 := by
  have h := c6_ibo32_roundtrip 4196 4096 (by norm_num [PEParser.U64])
    (by norm_num [PEParser.U64])
    (by left; norm_num [PEParser.sub64, PEParser.U64])
  exact ⟨h.1, h.2 65536 (by norm_num [PEParser.U64])⟩

/-- Counterexample to C7: on `imgC7` the computed `e_lfanew` offset 0x200
exceeds the loaded size 0x100, yet `parse` succeeds (it performs no
truncation check), instead of failing with `Truncated` as the claim
states. -/
theorem c7_counterexample :
    PEParser.peOff imgC7 = 0x200 ∧ sizeC7 < 0x200 ∧
      PEParser.parse imgC7 = some [] := by
  refine ⟨by decide, by decide, ?_⟩
  decide

/-- C7 amended: `parse` reports failure exactly on an `MZ` or `PE`
signature mismatch (a single `false` return, with no retry); it performs
no truncation checking whatsoever, so computed header offsets are read
unchecked even when they exceed the module's loaded size. -/
theorem c7_parse_fails_iff_signature_mismatch (img : Int → Nat) :
    PEParser.parse img = none ↔
      (PEParser.readU16 img 0 ≠ 0x5A4D ∨
       PEParser.toI32 (PEParser.readU32 img (PEParser.peOff img)) ≠ 0x4550) := by
  by_cases h1 : PEParser.readU16 img 0 = 0x5A4D <;>
    by_cases h2 :
      PEParser.toI32 (PEParser.readU32 img (PEParser.peOff img)) = 0x4550 <;>
    simp [PEParser.parse, h1, h2]

/-- Counterexample to C5: the stored section name is the C string read
from the header start, which runs past the 8-byte name field into the
`virtual_size` bytes when the field contains no NUL.  Here the header's
8-byte name trimmed of trailing NULs is `ABCDEFGH`, but parse stores the
9-byte string `ABCDEFGHA` (picking up the first `virtual_size` byte), so
the claim's description of the stored name is false.  The start/end
fields do match the claim (`start = 0x1000`, `end = 0x1041`). -/
theorem c5_counterexample :
    PEParser.parse imgC5 =
      some [([0x41, 0x42, 0x43, 0x44, 0x45, 0x46, 0x47, 0x48, 0x41],
             [⟨[0x41, 0x42, 0x43, 0x44, 0x45, 0x46, 0x47, 0x48, 0x41],
               0x41, 0x1000, 0x1041⟩])] ∧
    PEParser.nameFieldTrimmed imgC5 0x98 =
      [0x41, 0x42, 0x43, 0x44, 0x45, 0x46, 0x47, 0x48] ∧
    ([0x41, 0x42, 0x43, 0x44, 0x45, 0x46, 0x47, 0x48, 0x41] : List Nat) ≠
      [0x41, 0x42, 0x43, 0x44, 0x45, 0x46, 0x47, 0x48] := by
  refine ⟨?_, by decide, by decide⟩
  decide

/-- C5 amended: for each of the headers (the count being read as a
signed 16-bit value), parse stores a `Sec` whose name is the C string
starting at the header (bytes up to the first NUL, which may run past
the 8-byte name field), whose start is the i32 at header+0x0C and whose
end is `start + virtual_size` with `virtual_size` the i32 at
header+0x08; sections with identical names are retained in encounter
order: the per-name list in the section map is exactly the encounter-
ordered sublist of decoded headers bearing that name. -/
theorem c5_sections_per_name_in_order (img : Int → Nat) (mp : PEParser.SMap)
    (h : PEParser.parse img = some mp) (nm : List Nat) :
    PEParser.smapFind mp nm =
      if (PEParser.headerSecs img).filter (fun s => s.name = nm) = [] then none
      else some ((PEParser.headerSecs img).filter (fun s => s.name = nm)) := by
  have hmp : mp = (List.range (PEParser.secCnt img)).foldl
      (fun m i => PEParser.addSection m (PEParser.decodeSec img (PEParser.secTbl img) i)) [] := by
    unfold PEParser.parse at h
    split at h
    · exact absurd h (by simp)
    · split at h
      · exact absurd h (by simp)
      · exact (Option.some.injEq _ _ ▸ h).symm
  have hfold : (List.range (PEParser.secCnt img)).foldl
      (fun m i => PEParser.addSection m (PEParser.decodeSec img (PEParser.secTbl img) i)) []
      = (PEParser.headerSecs img).foldl PEParser.addSection [] := by
    unfold PEParser.headerSecs
    rw [List.foldl_map]
  rw [hmp, hfold, PEParser.smapFind_foldl_addSection]
  by_cases hf : (PEParser.headerSecs img).filter (fun s => s.name = nm) = [] <;>
    simp [hf, PEParser.smapFind]

/-- Witness for C5's amended theorem: on `imgC5` the per-name lookup of
the stored 9-byte name returns exactly the one decoded section. -/
theorem c5_sections_per_name_in_order_witness :
    PEParser.smapFind
      [([0x41, 0x42, 0x43, 0x44, 0x45, 0x46, 0x47, 0x48, 0x41],
        [⟨[0x41, 0x42, 0x43, 0x44, 0x45, 0x46, 0x47, 0x48, 0x41],
          0x41, 0x1000, 0x1041⟩])]
      [0x41, 0x42, 0x43, 0x44, 0x45, 0x46, 0x47, 0x48, 0x41] =
      if (PEParser.headerSecs imgC5).filter
          (fun s => s.name = [0x41, 0x42, 0x43, 0x44, 0x45, 0x46, 0x47, 0x48, 0x41]) = []
        then none
        else some ((PEParser.headerSecs imgC5).filter
          (fun s => s.name = [0x41, 0x42, 0x43, 0x44, 0x45, 0x46, 0x47, 0x48, 0x41])) :=
  c5_sections_per_name_in_order imgC5 _ (by decide) _

/-! ### C1: chain install/uninstall symmetry -/
/-- C1: starting from an unhooked VFT slot holding the original `F0`,
installing hooks `H1, H2, H3` (bases `h1, h2, h3`) in that order and
then destroying the three handles in ANY permutation restores the
slot's content to `F0`; and removing the middle hook `H2` from the
three-hook chain leaves exactly the well-formed two-hook chain of `H3`
and `H1` (each survivor's `fnHooked`/`previous` routing through the
surviving hooks down to `F0` and the anchor slot, which is what
membership in `mkChain` states). -/
theorem c1_chain_symmetry (sa F0 h1 h2 h3 f1 f2 f3 : Nat) (amb : Nat → Nat)
    (G : VFTHook.GoodAddrs sa F0 [h3, h2, h1] amb) :
    (∀ l : List Nat, l.Perm [h3, h2, h1] →
      (VFTHook.unhookAll l
        (VFTHook.installG VFTHook.allOk VFTHook.magicV VFTHook.hdrSize sa f3 h3
          (VFTHook.installG VFTHook.allOk VFTHook.magicV VFTHook.hdrSize sa f2 h2
            (VFTHook.installG VFTHook.allOk VFTHook.magicV VFTHook.hdrSize sa f1 h1
              (VFTHook.mkChain sa F0 amb []))))).slotVal = F0) ∧
    VFTHook.unhookG VFTHook.allOk VFTHook.hdrSize (some h2)
        (VFTHook.installG VFTHook.allOk VFTHook.magicV VFTHook.hdrSize sa f3 h3
          (VFTHook.installG VFTHook.allOk VFTHook.magicV VFTHook.hdrSize sa f2 h2
            (VFTHook.installG VFTHook.allOk VFTHook.magicV VFTHook.hdrSize sa f1 h1
              (VFTHook.mkChain sa F0 amb [])))) =
      VFTHook.mkChain sa F0 amb [(h3, f3), (h1, f1)] := by
  have s2 : List.Sublist [h2, h1] [h3, h2, h1] := List.sublist_cons_self h3 _
  have s1 : List.Sublist [h1] [h3, h2, h1] :=
    (List.sublist_cons_self h2 [h1]).trans s2
  have G1 : VFTHook.GoodAddrs sa F0 [h1] amb :=
    VFTHook.goodAddrs_sublist sa F0 _ _ amb s1 G
  have G2 : VFTHook.GoodAddrs sa F0 [h2, h1] amb :=
    VFTHook.goodAddrs_sublist sa F0 _ _ amb s2 G
  have I1 := VFTHook.install_mkChain sa F0 amb [] f1 h1 G1
  have I2 := VFTHook.install_mkChain sa F0 amb [(h1, f1)] f2 h2 G2
  have I3 := VFTHook.install_mkChain sa F0 amb [(h2, f2), (h1, f1)] f3 h3 G
  have hIns : VFTHook.installG VFTHook.allOk VFTHook.magicV VFTHook.hdrSize sa f3 h3
      (VFTHook.installG VFTHook.allOk VFTHook.magicV VFTHook.hdrSize sa f2 h2
        (VFTHook.installG VFTHook.allOk VFTHook.magicV VFTHook.hdrSize sa f1 h1
          (VFTHook.mkChain sa F0 amb []))) =
      VFTHook.mkChain sa F0 amb [(h3, f3), (h2, f2), (h1, f1)] := by
    rw [I1, I2, I3]
  constructor
  · intro l hperm
    rw [hIns]
    rw [VFTHook.unhookAll_perm sa F0 amb l [(h3, f3), (h2, f2), (h1, f1)]
      (by simpa using hperm) (by simpa using G)]
    rfl
  · rw [hIns]
    exact VFTHook.unhook_mkChain sa F0 amb [(h3, f3)] [(h1, f1)] h2 f2 (by simpa using G)

/-- Witness for C1 at concrete addresses: slot 1000, original function
10000, hooks at 2000/3000/4000, destroyed middle-first. -/
theorem c1_chain_symmetry_witness :
    (VFTHook.unhookAll [3000, 4000, 2000]
      (VFTHook.installG VFTHook.allOk VFTHook.magicV VFTHook.hdrSize 1000 3 4000
        (VFTHook.installG VFTHook.allOk VFTHook.magicV VFTHook.hdrSize 1000 2 3000
          (VFTHook.installG VFTHook.allOk VFTHook.magicV VFTHook.hdrSize 1000 1 2000
            (VFTHook.mkChain 1000 10000 (fun _ => 0) []))))).slotVal = 10000 ∧
    VFTHook.unhookG VFTHook.allOk VFTHook.hdrSize (some 3000)
        (VFTHook.installG VFTHook.allOk VFTHook.magicV VFTHook.hdrSize 1000 3 4000
          (VFTHook.installG VFTHook.allOk VFTHook.magicV VFTHook.hdrSize 1000 2 3000
            (VFTHook.installG VFTHook.allOk VFTHook.magicV VFTHook.hdrSize 1000 1 2000
              (VFTHook.mkChain 1000 10000 (fun _ => 0) [])))) =
      VFTHook.mkChain 1000 10000 (fun _ => 0) [(4000, 3), (2000, 1)] := by
  have h := c1_chain_symmetry 1000 10000 2000 3000 4000 1 2 3 (fun _ => 0)
    ⟨by decide, by decide, by decide, by decide, by decide, by decide⟩
  exact ⟨h.1 [3000, 4000, 2000] (by decide), h.2⟩

/-! ### C2: single-install postcondition -/
/-- C2: installing one hook by class name into a previously unhooked
slot `V + 8*idx` holding `F0` succeeds; afterwards the slot points at
the non-null trampoline body (`h + hdrSize`, strictly after the header,
not the header itself), and the header satisfies `fnNew = fn`,
`fnHooked = F0` and `previous = &V[idx]`. -/
theorem c2_install_by_name (rtti : List (String × RTTIScanner.RTTIRec)) (nm : String)
    (cls : RTTIScanner.RTTIRec) (idx fn h F0 : Nat) (amb : Nat → Nat)
    (hcls : RTTIScanner.getClassRTTI rtti nm = some cls)
    (G : VFTHook.GoodAddrs (cls.pVFT + 8 * idx) F0 [h] amb) :
    (VFTHook.hookByName rtti nm idx fn h
        (VFTHook.mkChain (cls.pVFT + 8 * idx) F0 amb [])).2 = some h ∧
    (VFTHook.hookByName rtti nm idx fn h
        (VFTHook.mkChain (cls.pVFT + 8 * idx) F0 amb [])).1.slotVal =
      h + VFTHook.hdrSize ∧
    h + VFTHook.hdrSize ≠ 0 ∧ h + VFTHook.hdrSize ≠ h ∧
    (VFTHook.hookByName rtti nm idx fn h
        (VFTHook.mkChain (cls.pVFT + 8 * idx) F0 amb [])).1.hooks.lookup h =
      some ⟨VFTHook.magicV, cls.pVFT + 8 * idx, fn, F0⟩ := by
  have hinst := VFTHook.install_mkChain (cls.pVFT + 8 * idx) F0 amb [] fn h G
  have hby : VFTHook.hookByName rtti nm idx fn h
      (VFTHook.mkChain (cls.pVFT + 8 * idx) F0 amb []) =
      (VFTHook.mkChain (cls.pVFT + 8 * idx) F0 amb [(h, fn)], some h) := by
    unfold VFTHook.hookByName
    rw [hcls]
    simp only [hinst]
  rw [hby]
  refine ⟨rfl, rfl, ?_, ?_, ?_⟩
  · show h + 56 ≠ 0; omega
  · show h + 56 ≠ h; omega
  · exact VFTHook.lookup_cons_self h _ _

/-- Witness for C2: map `CS::PlayerIns → VFT at 1000`, slot index 20
(slot address 1160), original 10000, allocation at 2000. -/
theorem c2_install_by_name_witness :
    (VFTHook.hookByName [("CS::PlayerIns", ⟨1000, 0, 0, 0, 0⟩)] "CS::PlayerIns"
        20 7 2000 (VFTHook.mkChain (1000 + 8 * 20) 10000 (fun _ => 0) [])).2 =
      some 2000 ∧
    (VFTHook.hookByName [("CS::PlayerIns", ⟨1000, 0, 0, 0, 0⟩)] "CS::PlayerIns"
        20 7 2000 (VFTHook.mkChain (1000 + 8 * 20) 10000 (fun _ => 0) [])).1.slotVal =
      2000 + VFTHook.hdrSize ∧
    2000 + VFTHook.hdrSize ≠ 0 ∧ 2000 + VFTHook.hdrSize ≠ 2000 ∧
    (VFTHook.hookByName [("CS::PlayerIns", ⟨1000, 0, 0, 0, 0⟩)] "CS::PlayerIns"
        20 7 2000 (VFTHook.mkChain (1000 + 8 * 20) 10000 (fun _ => 0) [])).1.hooks.lookup
        2000 = some ⟨VFTHook.magicV, 1000 + 8 * 20, 7, 10000⟩ :=
  c2_install_by_name [("CS::PlayerIns", ⟨1000, 0, 0, 0, 0⟩)] "CS::PlayerIns"
    ⟨1000, 0, 0, 0, 0⟩ 20 7 2000 10000 (fun _ => 0) rfl
    ⟨by decide, by decide, by decide, by decide, by decide, by decide⟩

/-! ### C9: install-by-name failure path -/
/-- C9: constructing a hook for a class name absent from the RTTI map
takes the class-not-found failure path: the handle's allocation base is
null, memory (every slot, the hook heap, ambient bytes) is unchanged
and in particular no executable page is allocated; destroying such a
handle is a no-op that frees nothing and writes nothing. -/
theorem c9_class_not_found (rtti : List (String × RTTIScanner.RTTIRec)) (nm : String)
    (idx fn h : Nat) (m : VFTHook.Mem) (prot : Nat → Bool)
    (hlook : RTTIScanner.getClassRTTI rtti nm = none) :
    VFTHook.hookByName rtti nm idx fn h m = (m, none) ∧
    VFTHook.unhookG prot VFTHook.hdrSize
      (VFTHook.hookByName rtti nm idx fn h m).2
      (VFTHook.hookByName rtti nm idx fn h m).1 = m := by
  have h1 : VFTHook.hookByName rtti nm idx fn h m = (m, none) := by
    unfold VFTHook.hookByName
    rw [hlook]
  refine ⟨h1, ?_⟩
  rw [h1]
  rfl

/-- Witness for C9: an empty RTTI map and the name `Nope`. -/
theorem c9_class_not_found_witness :
    VFTHook.hookByName [] "Nope" 0 7 2000 (VFTHook.Mem.mk 0 5 [] (fun _ => 0)) =
      (VFTHook.Mem.mk 0 5 [] (fun _ => 0), none) ∧
    VFTHook.unhookG VFTHook.allOk VFTHook.hdrSize
      (VFTHook.hookByName [] "Nope" 0 7 2000 (VFTHook.Mem.mk 0 5 [] (fun _ => 0))).2
      (VFTHook.hookByName [] "Nope" 0 7 2000 (VFTHook.Mem.mk 0 5 [] (fun _ => 0))).1 =
      VFTHook.Mem.mk 0 5 [] (fun _ => 0) :=
  c9_class_not_found [] "Nope" 0 7 2000 (VFTHook.Mem.mk 0 5 [] (fun _ => 0))
    VFTHook.allOk rfl

/-! ### C3: strategy (B) scan stepping -/
/-- C3 failing input, evaluated: a `.rdata` section of two pointer slots
where slot 0 holds a valid candidate (its value 100 lies in `.rdata`,
and the following slot's value 200 lies in `.text`).  The loop
`while (pCOL++ < end)` dereferences only slot indices 1 and 2 — slot 0
is never examined (and index 2 is one slot past the section end) — so
the candidate in slot 0 is missed and nothing is taken, refuting "the
scanner examines every pointer-aligned slot of the section exactly
once, advancing by a single slot per candidate". -/
theorem c3_sweep_skips_slot_zero :
    RTTIScanner.sweep (fun v => v == 100) (fun v => v == 200)
        (fun i => if i = 0 then 100 else if i = 1 then 200 else 0) 0 2 =
      ([1, 2], []) ∧
    (0 : Nat) ∉ [1, 2] ∧
    ((fun v : Nat => v == 100) 100 = true ∧ (fun v : Nat => v == 200) 200 = true) := by
  refine ⟨?_, by decide, by decide, by decide⟩
  decide

/-! ### C8: duplicate-name insertion policy -/
/-- C10: chain membership is decided by comparing the ACTING hook's own
magic field (`hook->hookData.magic == prevHook->hookData.magic`)
against the 8 bytes at the candidate's magic offset, not a global
constant.  Consequently: (a) the two layouts' magic constants,
`"VFTHook\x00" = 0x6B6F6F48544656` and `"UniHook\x00" =
0x6B6F6F48696E55`, differ; (b) an installer whose probe read does not
return its own magic `mg` takes the no-chain branch, leaving every
pre-existing hook record unmodified (no linking); (c) a destructor
whose probe reads do not return its own magic performs no neighbour
update: the remaining hook records are exactly the old ones minus the
removed hook (no unlinking of foreign hooks). -/
theorem c10_magic_family_mismatch (m1 : VFTHook.Mem) (fn1 hh D1 mg : Nat)
    (m2 : VFTHook.Mem) (h2x D2 : Nat) (r : VFTHook.HookRec)
    (hnomatch : mg ≠ VFTHook.readPtr
      (VFTHook.Mem.mk m1.slotAddr m1.slotVal
        ((hh, ⟨mg, m1.slotAddr, fn1, VFTHook.readPtr m1 m1.slotAddr⟩) :: m1.hooks)
        m1.ambient)
      (VFTHook.readPtr m1 m1.slotAddr - D1))
    (hlk : m2.hooks.lookup h2x = some r)
    (hnext : r.magic ≠ VFTHook.readPtr m2 (r.fnHooked - D2))
    (hprev : r.previous = m2.slotAddr)
    (hsv : r.magic ≠ m2.slotVal) :
    VFTHook.magicV ≠ VFTHook.magicU ∧
    (VFTHook.installG VFTHook.allOk mg D1 m1.slotAddr fn1 hh m1).hooks =
      (hh, ⟨mg, m1.slotAddr, fn1, VFTHook.readPtr m1 m1.slotAddr⟩) :: m1.hooks ∧
    (VFTHook.unhookG VFTHook.allOk D2 (some h2x) m2).hooks =
      m2.hooks.filter (fun p => p.1 ≠ h2x) := by
  refine ⟨by decide, ?_, ?_⟩
  · simp only [VFTHook.installG]
    rw [if_neg hnomatch]
    simp only [VFTHook.rdataWrite, VFTHook.allOk, if_true]
    unfold VFTHook.writePtr
    rw [if_pos rfl]
  · simp only [VFTHook.unhookG, hlk]
    rw [if_neg (fun hc => hnext hc)]
    have hcond2 : ¬ (r.magic = VFTHook.readPtr m2 r.previous) := by
      rw [hprev, VFTHook.readPtr_slot]
      exact hsv
    rw [if_neg hcond2]
    simp only [VFTHook.rdataWrite, VFTHook.allOk, if_true]
    rw [hprev]
    unfold VFTHook.writePtr
    rw [if_pos rfl]

/-- Witness for C10 at concrete values: a `UniHook`-family hook (magic
`magicU`, 80-byte header) sits installed at base 300 on slot 100; a
`VFTHook`-family installer (magic `magicV`, 56-byte header) probing
`slotVal - 56 = 324` reads the foreign hook's interior, not `magicV`,
and links nothing; a `VFTHook`-family record at base 500 whose
`fnHooked` is the foreign body likewise unlinks nothing. -/
theorem c10_magic_family_mismatch_witness :
    VFTHook.magicV ≠ VFTHook.magicU ∧
    (VFTHook.installG VFTHook.allOk VFTHook.magicV 56 100 7 900
        (VFTHook.Mem.mk 100 380 [(300, ⟨VFTHook.magicU, 100, 8, 9000⟩)]
          (fun _ => 0))).hooks =
      (900, ⟨VFTHook.magicV, 100, 7, 380⟩) ::
        [(300, ⟨VFTHook.magicU, 100, 8, 9000⟩)] ∧
    (VFTHook.unhookG VFTHook.allOk 56 (some 500)
      (VFTHook.Mem.mk 100 556
        [(500, ⟨VFTHook.magicV, 100, 7, 380⟩), (300, ⟨VFTHook.magicU, 100, 8, 9000⟩)]
        (fun _ => 0))).hooks =
      ([(500, ⟨VFTHook.magicV, 100, 7, 380⟩),
        (300, ⟨VFTHook.magicU, 100, 8, 9000⟩)] :
          List (Nat × VFTHook.HookRec)).filter (fun p => p.1 ≠ 500) := by
  exact c10_magic_family_mismatch
    (VFTHook.Mem.mk 100 380 [(300, ⟨VFTHook.magicU, 100, 8, 9000⟩)] (fun _ => 0))
    7 900 56 VFTHook.magicV
    (VFTHook.Mem.mk 100 556
      [(500, ⟨VFTHook.magicV, 100, 7, 380⟩), (300, ⟨VFTHook.magicU, 100, 8, 9000⟩)]
      (fun _ => 0))
    500 56 ⟨VFTHook.magicV, 100, 7, 380⟩
    (by decide) (by decide) (by decide) (by decide) (by decide)

/-- Counterexample to C4: installing a second hook (base 400) onto slot
100 (current chain: hook at 200, original 10000) under a protection
oracle that fails at the slot.  `rdataWrite`'s failure is ignored by
the caller: the install does not abort (the earlier neighbour write to
the hook at 200 has already happened — its `previous` now points to
400, a partial success), the trampoline allocation at 400 is NOT freed,
and only the slot itself stays unmodified because the failing store
never executed. -/
theorem c4_counterexample :
    ((VFTHook.installG protC4 VFTHook.magicV VFTHook.hdrSize 100 7 400
        (VFTHook.mkChain 100 10000 (fun _ => 0) [(200, 5)])).hooks.lookup 400 =
      some ⟨VFTHook.magicV, 100, 7, 256⟩) ∧
    ((VFTHook.installG protC4 VFTHook.magicV VFTHook.hdrSize 100 7 400
        (VFTHook.mkChain 100 10000 (fun _ => 0) [(200, 5)])).hooks.lookup 200 =
      some ⟨VFTHook.magicV, 400, 5, 10000⟩) ∧
    ((VFTHook.installG protC4 VFTHook.magicV VFTHook.hdrSize 100 7 400
        (VFTHook.mkChain 100 10000 (fun _ => 0) [(200, 5)])).slotVal = 256) ∧
    protC4 100 = false := by
  refine ⟨?_, ?_, ?_, rfl⟩ <;> decide

/-- C4 amended: when the page-protection change fails, `rdataWrite`
itself performs no store and reports `false`; but its callers ignore
that result: a failed protection change does not abort the enclosing
install, the trampoline allocation is not freed (the record stays in
the hook heap), any other pointer writes of the operation are still
attempted, and the slot is left unmodified only because the failing
store never executes. -/
theorem c4_protect_failure_ignored (prot : Nat → Bool) (m : VFTHook.Mem) (a v : Nat)
    (sa F0 fn h : Nat) (amb : Nat → Nat) (prot2 : Nat → Bool)
    (hfail : prot a = false)
    (G : VFTHook.GoodAddrs sa F0 [h] amb) (hfail2 : prot2 sa = false) :
    VFTHook.rdataWrite prot m a v = (m, false) ∧
    VFTHook.installG prot2 VFTHook.magicV VFTHook.hdrSize sa fn h
        (VFTHook.mkChain sa F0 amb []) =
      VFTHook.Mem.mk sa F0 [(h, ⟨VFTHook.magicV, sa, fn, F0⟩)] amb := by
  obtain ⟨hsep, hf0lo, hf0sep, hf0amb, hf0mag, hbodymag⟩ := G
  have hf0sa : sa + 112 ≤ F0 ∨ F0 + 56 ≤ sa := hf0sep sa (by simp)
  have hf0h : h + 112 ≤ F0 ∨ F0 + 56 ≤ h := hf0sep h (by simp)
  have hf0lo' : (112 : Nat) ≤ F0 := hf0lo
  constructor
  · unfold VFTHook.rdataWrite
    rw [hfail]
    rfl
  · have hprobe_sa : ¬ (F0 - VFTHook.hdrSize = sa) := by
      show ¬ (F0 - 56 = sa); omega
    have hprobe_h : VFTHook.hookFieldRead (F0 - VFTHook.hdrSize)
        (h, ⟨VFTHook.magicV, sa, fn, F0⟩) = none := by
      apply VFTHook.hookFieldRead_of_far
      show F0 - 56 < h ∨ h + 56 ≤ F0 - 56
      omega
    have hc : ¬ (VFTHook.magicV = amb (F0 - VFTHook.hdrSize)) :=
      fun hhc => hf0amb hhc.symm
    simp only [VFTHook.installG, VFTHook.mkChain, VFTHook.nextBody,
      VFTHook.chainRecs, VFTHook.rdataWrite, VFTHook.readPtr, VFTHook.writePtr,
      if_true, if_pos rfl, List.findSome?_cons, hprobe_h, if_neg hprobe_sa, hc,
      if_false, List.findSome?_nil, hfail2, Bool.false_eq_true]

/-- Witness for C4's amended theorem: the protection oracle failing at
slot 100; a no-op failed `rdataWrite`, and an install onto slot 100
that keeps its allocation at 300 while the slot stays at `F0 = 10000`. -/
theorem c4_protect_failure_ignored_witness :
    VFTHook.rdataWrite protC4 (VFTHook.Mem.mk 0 5 [] (fun _ => 0)) 100 7 =
      (VFTHook.Mem.mk 0 5 [] (fun _ => 0), false) ∧
    VFTHook.installG protC4 VFTHook.magicV VFTHook.hdrSize 100 7 300
        (VFTHook.mkChain 100 10000 (fun _ => 0) []) =
      VFTHook.Mem.mk 100 10000 [(300, ⟨VFTHook.magicV, 100, 7, 10000⟩)]
        (fun _ => 0) :=
  c4_protect_failure_ignored protC4 (VFTHook.Mem.mk 0 5 [] (fun _ => 0)) 100 7
    100 10000 7 300 (fun _ => 0) protC4 (by decide)
    ⟨by decide, by decide, by decide, by decide, by decide, by decide⟩ (by decide)

/-- C8: the per-scan map insertion uses `emplace`; after inserting all
validated candidates in encounter order into an empty map,
`getClassRTTI` returns the record of the *first* candidate bearing each
name — a later candidate with the same demangled name neither replaces
nor modifies the stored record. -/
theorem c8_emplace_keeps_first (cands : List (String × RTTIScanner.RTTIRec))
    (n : String) :
    RTTIScanner.getClassRTTI (RTTIScanner.scanEmplaceAll cands []) n =
      (cands.find? (fun c => c.1 == n)).map Prod.snd := by
  unfold RTTIScanner.getClassRTTI
  rw [RTTIScanner.lookup_scanEmplaceAll]
  simp [List.lookup]

end RTTIHookClaims
